import Mathlib

/-!
Shallow embedding of the ConfigMap propagation reconciler
(repository harsha3330/kubernetes-controllers, package
custom-controllers/propagator) and proofs about its core algorithms:
the desired/current diff, the target mutators, the resync scheduler,
the finalizer-gated deletion protocol and the status accounting.

Go `map[string]string` values are modelled as association lists with
first-match lookup and replace-or-append insertion; a Go map never has
a duplicate key, which shows up below as `Nodup` hypotheses on key
lists.  Times and durations (`metav1.Time`, `time.Duration`) are
modelled as integers (nanoseconds); the zero `metav1.Time` is the
integer 0.  Remote I/O against the API server is modelled either by a
pure in-memory store (the happy path) or, for the failure-handling
claims, by per-target outcome oracles passed in as functions.
-/

namespace Propagator


/-- Model of Go `map[string]string`: an association list. -/
abbrev Smap := List (String × String)

/-- Go map read `m[k]`: first matching entry. -/
def mlookup : Smap → String → Option String
  | [], _ => none
  | kv :: rest, k => if kv.1 = k then some kv.2 else mlookup rest k

/-- Go map write `m[k] = v`: replace the entry if the key is present,
append it otherwise. -/
def mupsert : Smap → String → String → Smap
  | [], k, v => [(k, v)]
  | kv :: rest, k, v => if kv.1 = k then (k, v) :: rest else kv :: mupsert rest k v

/-- Go loop `for k, v := range s { m[k] = v }`. -/
def minsertAll (m : Smap) (s : Smap) : Smap :=
  s.foldl (fun acc kv => mupsert acc kv.1 kv.2) m

/-- Go `delete(m, k)`. -/
def mremove : Smap → String → Smap
  | [], _ => []
  | kv :: rest, k => if kv.1 = k then mremove rest k else kv :: mremove rest k

/-- The key list of a map. -/
def mkeys (m : Smap) : List String := m.map Prod.fst

/-- One direction of Go `reflect.DeepEqual` on maps: every entry of `a`
is present in `b` with the same value. -/
def msubset (a b : Smap) : Bool :=
  a.all (fun kv => decide (mlookup b kv.1 = some kv.2))

/-- Go `reflect.DeepEqual` on two maps: same entries both ways. -/
def mequiv (a b : Smap) : Bool := msubset a b && msubset b a

/-! Core data model: targets, ConfigMaps, the in-memory store, the
`ConfigMapPropagation` source record, and the controller constants from
`variables.go`. -/

/-- `PropagatorTarget` from the controller package: one propagation
destination. -/
structure PropagatorTarget where
  ConfigmapName : String
  Namespace : String
deriving DecidableEq, Repr

/-- The stable diff key `target.Namespace + "/" + target.ConfigmapName`
used by `SyncTargets` and `getDesiredTargets`. -/
def targetKey (t : PropagatorTarget) : String :=
  t.Namespace ++ "/" ++ t.ConfigmapName

/-- A `corev1.ConfigMap`, reduced to the fields the controller reads or
writes (`BinaryData` is only copied verbatim on create and never
consulted, so it is omitted). -/
structure ConfigMap where
  Namespace : String
  Name : String
  Labels : Smap
  Annotations : Smap
  Data : Smap
deriving DecidableEq, Repr

/-- The API server's ConfigMap collection, keyed by (namespace, name). -/
abbrev Store := List ConfigMap

/-- `client.Get` on ConfigMaps: `none` models an IsNotFound error. -/
def storeGet : Store → String → String → Option ConfigMap
  | [], _, _ => none
  | c :: rest, ns, name =>
    if c.Namespace = ns ∧ c.Name = name then some c else storeGet rest ns name

/-- `client.Create`/`client.Update` on a ConfigMap: replace the object
with the same (namespace, name) key, or add it. -/
def storeUpsert : Store → ConfigMap → Store
  | [], cm => [cm]
  | c :: rest, cm =>
    if c.Namespace = cm.Namespace ∧ c.Name = cm.Name then cm :: rest
    else c :: storeUpsert rest cm

/-- `client.Delete` on a ConfigMap by key. -/
def storeDelete : Store → String → String → Store
  | [], _, _ => []
  | c :: rest, ns, name =>
    if c.Namespace = ns ∧ c.Name = name then storeDelete rest ns name
    else c :: storeDelete rest ns name

/-- Constants from `variables.go`. -/
def FinalizerName : String := "sync.propagators.io/finalizer"

def OwnerLabelKey : String := "sync.propagators.io/owner"

/-- `OwnerUIDAnnotation` in the source (suffix `Key` added to the Lean
name). -/
def OwnerUIDAnnotationKey : String := "sync.propagators.io/owner-uid"

def ManagedByLabelKey : String := "sync.propagators.io/managed-by"

def ManagedByLabelValue : String := "configmap-propagator"

/-- Go `error` values as the controller builds them: `errors.New`
sentinels, `fmt.Errorf` without `%w` (carries no wrapped error), and
`fmt.Errorf` with `%w`. -/
inductive GoError where
  | newError (msg : String)
  | errorf (msg : String)
  | wrapped (msg : String) (inner : GoError)
deriving DecidableEq, BEq, Repr

/-- `errors.Is`: identity match on the error itself, else follow the
`Unwrap` chain; `errors.New` and plain `fmt.Errorf` values have no
`Unwrap`. -/
def errorsIs : GoError → GoError → Bool
  | .wrapped m inner, target => (GoError.wrapped m inner == target) || errorsIs inner target
  | e, target => e == target

/-- `ErrDeletingTargets` from `variables.go`. -/
def ErrDeletingTargets : GoError :=
  GoError.newError "failed to remove/orphan ConfigMaps of targets"

/-- The spec sub-object of `ConfigMapPropagation`, reduced to the fields
the reconciliation engine reads.  Enumerated string fields
(`SyncMode`, policies) are kept as strings, as the Go switch statements
compare them as strings. -/
structure CmpSpec where
  SourceName : String
  SourceNamespace : String
  PropagationPolicy : String
  DeletionPolicy : String
  SyncMode : String
  SyncInterval : Int
deriving DecidableEq, Repr

/-- The status sub-object fields read by the scheduler
(`shouldRefresh` / `getRequeueResult`).  `metav1.Time` values are
integers; 0 is the zero time (`IsZero`). -/
structure CmpStatus where
  SyncedGeneration : String
  LastSuccessfulSync : Int
  LastSyncedAt : Int
deriving DecidableEq, Repr

/-- The `ConfigMapPropagation` source record. -/
structure ConfigMapPropagation where
  Namespace : String
  Name : String
  UID : String
  Generation : Int
  Finalizers : List String
  Spec : CmpSpec
  Status : CmpStatus
deriving DecidableEq, Repr

/-- The derived owner key `fmt.Sprintf("%s.%s", cmp.Namespace, cmp.Name)`
stamped on every owned target. -/
def ownerLabelValue (cmp : ConfigMapPropagation) : String :=
  cmp.Namespace ++ "." ++ cmp.Name

/-- Defaulting of the source namespace in `ensureConfigMap` /
`updateIfNeeded`: empty means "default". -/
def effectiveSourceNS (cmp : ConfigMapPropagation) : String :=
  if cmp.Spec.SourceNamespace = "" then "default" else cmp.Spec.SourceNamespace

/-! The diff engine of `SyncTargets` (configmap_sync.go lines 31-64):
desired and current target slices are reduced to Go maps keyed by
`namespace + "/" + name`, then partitioned into toCreate / toUpdate /
toDelete. -/

/-- One Go map write `m[key] = target` on the desired/current maps. -/
def tmapInsert : List (String × PropagatorTarget) → String → PropagatorTarget →
    List (String × PropagatorTarget)
  | [], k, t => [(k, t)]
  | kv :: rest, k, t =>
    if kv.1 = k then (k, t) :: rest else kv :: tmapInsert rest k t

/-- The loop `for _, target := range ts { m[key] = target }`. -/
def buildTargetMap (ts : List PropagatorTarget) : List (String × PropagatorTarget) :=
  ts.foldl (fun m t => tmapInsert m (targetKey t) t) []

/-- The `_, exists := m[key]` membership probe. -/
def tmapHasKey (m : List (String × PropagatorTarget)) (k : String) : Bool :=
  m.any (fun kv => kv.1 = k)

/-- `toCreate`: desired entries whose key is absent from the current map. -/
def toCreate (desired current : List PropagatorTarget) : List PropagatorTarget :=
  ((buildTargetMap desired).filter
    (fun kv => !(tmapHasKey (buildTargetMap current) kv.1))).map Prod.snd

/-- `toUpdate`: desired entries whose key is present in the current map. -/
def toUpdate (desired current : List PropagatorTarget) : List PropagatorTarget :=
  ((buildTargetMap desired).filter
    (fun kv => tmapHasKey (buildTargetMap current) kv.1)).map Prod.snd

/-- `toDelete`: current entries whose key is absent from the desired map. -/
def toDelete (desired current : List PropagatorTarget) : List PropagatorTarget :=
  ((buildTargetMap current).filter
    (fun kv => !(tmapHasKey (buildTargetMap desired) kv.1))).map Prod.snd

/-- The key set of a target list, as a finite set. -/
def keySet (ts : List PropagatorTarget) : Finset String :=
  (ts.map targetKey).toFinset

/-- The rendered message of a Go error (`%v` formatting). -/
def goMsg : GoError → String
  | .newError m => m
  | .errorf m => m
  | .wrapped m _ => m

/-- Go map read with the zero-value default: `m[k]` yields `""` when the
key is absent. -/
def mgetD (m : Smap) (k : String) : String := (mlookup m k).getD ""

/-- `TargetsSummary` from the API types.  The Go fields are `int32`;
the counters only ever grow by 1 per reconciled target, so `Nat`
models them exactly for any realistic fleet. -/
structure TargetsSummary where
  Total : Nat
  Created : Nat
  Updated : Nat
  Deleted : Nat
  Orphaned : Nat
  Failed : Nat
deriving DecidableEq, Repr

def TargetsSummary.init : TargetsSummary :=
  { Total := 0, Created := 0, Updated := 0, Deleted := 0, Orphaned := 0, Failed := 0 }

/-- `TargetStatus` from the API types (detail-list entry). -/
structure TargetStatus where
  Namespace : String
  Name : String
  State : String
  Reason : String
  Message : String
deriving DecidableEq, Repr

/-- `ctrl.Result`: `RequeueAfter` in nanoseconds, 0 meaning none. -/
structure CtrlResult where
  Requeue : Bool
  RequeueAfter : Int
deriving DecidableEq, Repr

/-! Target mutators from `variables.go`, acting on the pure store.
Each returns the new store, whether a mutating API call
(Create/Update/Delete) was issued, and the Go error result.  In this
pure model the API itself never fails; NotFound is modelled by
`storeGet` returning `none`, and the one surviving error path is the
source ConfigMap being absent.  `reflect.DeepEqual` on two
`map[string]string` values is `mequiv`. -/

/-- The key string of a stored ConfigMap, matching the diff key of the
target that points at it. -/
def cmKey (cm : ConfigMap) : String := cm.Namespace ++ "/" ++ cm.Name

/-- The (namespace, name) location of a stored ConfigMap. -/
def storePairs (st : Store) : List (String × String) :=
  st.map (fun cm => (cm.Namespace, cm.Name))

/-- A target record carries this source's ownership marker. -/
def ownedBy (cmp : ConfigMapPropagation) (cm : ConfigMap) : Prop :=
  mlookup cm.Labels OwnerLabelKey = some (ownerLabelValue cmp)

/-- The fresh ConfigMap built by the create branch of `ensureConfigMap`:
payload copied verbatim from the source, ownership markers set. -/
def createdCM (cmp : ConfigMapPropagation) (src : ConfigMap)
    (t : PropagatorTarget) : ConfigMap :=
  { Namespace := t.Namespace
    Name := t.ConfigmapName
    Labels := [(OwnerLabelKey, ownerLabelValue cmp), (ManagedByLabelKey, ManagedByLabelValue)]
    Annotations := [(OwnerUIDAnnotationKey, cmp.UID)]
    Data := src.Data }

/-- `ensureConfigMap`: create-or-adopt one target.  On an existing
target, stamp the owner label, managed-by label and owner-UID
annotation if any differ (Go reads of a missing key yield `""`, hence
`mgetD`); on a missing target, copy the source payload verbatim into a
fresh ConfigMap carrying the markers. -/
def ensureConfigMap (cmp : ConfigMapPropagation) (st : Store)
    (t : PropagatorTarget) : Store × Bool × Option GoError :=
  match storeGet st t.Namespace t.ConfigmapName with
  | some cm =>
    let ownerLabelVal := ownerLabelValue cmp
    let patched1 := mgetD cm.Labels OwnerLabelKey ≠ ownerLabelVal
    let labels1 := if patched1 then mupsert cm.Labels OwnerLabelKey ownerLabelVal else cm.Labels
    let patched2 := mgetD labels1 ManagedByLabelKey ≠ ManagedByLabelValue
    let labels2 :=
      if patched2 then mupsert labels1 ManagedByLabelKey ManagedByLabelValue else labels1
    let patched3 := mgetD cm.Annotations OwnerUIDAnnotationKey ≠ cmp.UID
    let anns1 :=
      if patched3 then mupsert cm.Annotations OwnerUIDAnnotationKey cmp.UID else cm.Annotations
    if patched1 ∨ patched2 ∨ patched3 then
      (storeUpsert st { cm with Labels := labels2, Annotations := anns1 }, true, none)
    else (st, false, none)
  | none =>
    match storeGet st (effectiveSourceNS cmp) cmp.Spec.SourceName with
    | none =>
      (st, false, some (GoError.errorf ("failed to get source ConfigMap " ++
        effectiveSourceNS cmp ++ "/" ++ cmp.Spec.SourceName)))
    | some src => (storeUpsert st (createdCM cmp src t), true, none)

/-- The desired-payload computation inside `updateIfNeeded`: `Overwrite`
takes the source payload wholesale; every other policy (the `default`
arm, which includes `Merge`) copies the target payload into a fresh map
and then applies every source key on top. -/
def desiredData (policy : String) (targetData srcData : Smap) : Smap :=
  match policy with
  | "Overwrite" => srcData
  | _ => minsertAll (minsertAll [] targetData) srcData

/-- `updateIfNeeded`: re-fetch target (missing is a no-op success),
re-fetch source, compute the desired payload, skip the write when it
already equals the target payload. -/
def updateIfNeeded (cmp : ConfigMapPropagation) (st : Store)
    (t : PropagatorTarget) : Store × Bool × Option GoError :=
  match storeGet st t.Namespace t.ConfigmapName with
  | none => (st, false, none)
  | some target =>
    match storeGet st (effectiveSourceNS cmp) cmp.Spec.SourceName with
    | none => (st, false, some (GoError.errorf "failed to get source configmap for update"))
    | some src =>
      let d := desiredData cmp.Spec.PropagationPolicy target.Data src.Data
      if mequiv target.Data d then (st, false, none)
      else (storeUpsert st { target with Data := d }, true, none)

/-- `deleteConfigMap`: fetch-then-delete; missing target is success. -/
def deleteConfigMap (st : Store) (ns name : String) : Store × Bool × Option GoError :=
  match storeGet st ns name with
  | none => (st, false, none)
  | some _ => (storeDelete st ns name, true, none)

/-- `orphanConfigMap`: drop the owner label and the owner-UID annotation
only when each currently carries this source's identity (the Go code
checks presence with `, ok` and then value equality); write only if
something was removed; missing target is a no-op success. -/
def orphanConfigMap (cmp : ConfigMapPropagation) (st : Store) (ns name : String) :
    Store × Bool × Option GoError :=
  match storeGet st ns name with
  | none => (st, false, none)
  | some cm =>
    let expected := ownerLabelValue cmp
    let labelMatches := mlookup cm.Labels OwnerLabelKey = some expected
    let labels1 := if labelMatches then mremove cm.Labels OwnerLabelKey else cm.Labels
    let annMatches := mlookup cm.Annotations OwnerUIDAnnotationKey = some cmp.UID
    let anns1 :=
      if annMatches then mremove cm.Annotations OwnerUIDAnnotationKey else cm.Annotations
    if labelMatches ∨ annMatches then
      (storeUpsert st { cm with Labels := labels1, Annotations := anns1 }, true, none)
    else (st, false, none)

/-- `getCurrentTargets`: list ConfigMaps whose owner label equals this
source's derived owner key. -/
def getCurrentTargets (cmp : ConfigMapPropagation) (st : Store) : List PropagatorTarget :=
  (st.filter (fun cm => decide (mlookup cm.Labels OwnerLabelKey = some (ownerLabelValue cmp)))).map
    (fun cm => { ConfigmapName := cm.Name, Namespace := cm.Namespace })

/-! The execute phase of `SyncTargets` (configmap_sync.go lines 66-161),
threading the store through the three loops and keeping the summary,
the detail list and the count of mutating target writes. -/

structure PassState where
  store : Store
  summary : TargetsSummary
  statuses : List TargetStatus
  writes : Nat
deriving DecidableEq, Repr

/-- One iteration of the `toCreate` loop. -/
def createStep (cmp : ConfigMapPropagation) (ps : PassState) (t : PropagatorTarget) : PassState :=
  match ensureConfigMap cmp ps.store t with
  | (st', wrote, none) =>
    { ps with
      store := st',
      summary := { ps.summary with
        Created := ps.summary.Created + 1, Total := ps.summary.Total + 1 },
      writes := ps.writes + (if wrote then 1 else 0) }
  | (st', wrote, some e) =>
    { ps with
      store := st',
      summary := { ps.summary with
        Failed := ps.summary.Failed + 1, Total := ps.summary.Total + 1 },
      statuses := ps.statuses ++
        [{ Namespace := t.Namespace, Name := t.ConfigmapName, State := "Failed",
           Reason := goMsg e, Message := "Failed to Ensure the configmap" }],
      writes := ps.writes + (if wrote then 1 else 0) }

/-- One iteration of the `toUpdate` loop.  Note: the failure arm appends
a detail entry but does not touch `Failed`, exactly as the Go loop. -/
def updateStep (cmp : ConfigMapPropagation) (ps : PassState) (t : PropagatorTarget) : PassState :=
  match updateIfNeeded cmp ps.store t with
  | (st', wrote, none) =>
    { ps with
      store := st',
      summary := { ps.summary with
        Updated := ps.summary.Updated + 1, Total := ps.summary.Total + 1 },
      writes := ps.writes + (if wrote then 1 else 0) }
  | (st', wrote, some e) =>
    { ps with
      store := st',
      summary := { ps.summary with Total := ps.summary.Total + 1 },
      statuses := ps.statuses ++
        [{ Namespace := t.Namespace, Name := t.ConfigmapName, State := "Failed",
           Reason := goMsg e, Message := "Failed to update the configmap" }],
      writes := ps.writes + (if wrote then 1 else 0) }

/-- One iteration of the `toDelete` loop: a switch on the deletion
policy with no default arm, so any other policy value does nothing. -/
def deleteStep (cmp : ConfigMapPropagation) (ps : PassState) (t : PropagatorTarget) : PassState :=
  match cmp.Spec.DeletionPolicy with
  | "Delete" =>
    match deleteConfigMap ps.store t.Namespace t.ConfigmapName with
    | (st', wrote, none) =>
      { ps with
      store := st',
        summary := { ps.summary with
          Deleted := ps.summary.Deleted + 1, Total := ps.summary.Total + 1 },
        writes := ps.writes + (if wrote then 1 else 0) }
    | (st', wrote, some _) =>
      { ps with
      store := st',
        summary := { ps.summary with
          Failed := ps.summary.Failed + 1, Total := ps.summary.Total + 1 },
        writes := ps.writes + (if wrote then 1 else 0) }
  | "Orphan" =>
    match orphanConfigMap cmp ps.store t.Namespace t.ConfigmapName with
    | (st', wrote, none) =>
      { ps with
      store := st',
        summary := { ps.summary with
          Orphaned := ps.summary.Orphaned + 1, Total := ps.summary.Total + 1 },
        writes := ps.writes + (if wrote then 1 else 0) }
    | (st', wrote, some _) =>
      { ps with
      store := st',
        summary := { ps.summary with
          Failed := ps.summary.Failed + 1, Total := ps.summary.Total + 1 },
        writes := ps.writes + (if wrote then 1 else 0) }
  | _ => ps

def runCreateLoop (cmp : ConfigMapPropagation) (ps : PassState)
    (l : List PropagatorTarget) : PassState := l.foldl (createStep cmp) ps

def runUpdateLoop (cmp : ConfigMapPropagation) (ps : PassState)
    (l : List PropagatorTarget) : PassState := l.foldl (updateStep cmp) ps

def runDeleteLoop (cmp : ConfigMapPropagation) (ps : PassState)
    (l : List PropagatorTarget) : PassState := l.foldl (deleteStep cmp) ps

/-- The sync pass of `SyncTargets` after desired-target resolution:
discover current targets, diff, run the three loops, and return an
error exactly when the summary records a failure (the status patch on
the propagation object itself is outside the ConfigMap store and not
counted as a target write). -/
def syncPass (cmp : ConfigMapPropagation) (desired : List PropagatorTarget)
    (st : Store) : PassState × Option GoError :=
  let current := getCurrentTargets cmp st
  let ps0 : PassState := { store := st, summary := TargetsSummary.init, statuses := [], writes := 0 }
  let ps1 := runCreateLoop cmp ps0 (toCreate desired current)
  let ps2 := runUpdateLoop cmp ps1 (toUpdate desired current)
  let ps3 := runDeleteLoop cmp ps2 (toDelete desired current)
  (ps3, if ps3.summary.Failed > 0 then some (GoError.errorf "failed to sync the targets") else none)

/-! The scheduler (`shouldRefresh` / `getRequeueResult` from the
controller file). -/

/-- `shouldRefresh`: the pure sync-due decision.  `fmt.Sprintf("%d", g)`
is decimal rendering, `metav1.Time.IsZero` is `= 0`, and
`lastSyncedAt.Add(interval).Before(now)` is a strict `<`. -/
def shouldRefresh (cmp : ConfigMapPropagation) (now : Int) : Bool :=
  match cmp.Spec.SyncMode with
  | "CreatedOnce" =>
    if cmp.Status.SyncedGeneration = "" ∨ cmp.Status.LastSuccessfulSync = 0 then true else false
  | "OnChange" =>
    let expected := toString cmp.Generation
    if cmp.Status.SyncedGeneration = "" ∨ cmp.Status.SyncedGeneration ≠ expected then true
    else false
  | "Periodic" =>
    let expected := toString cmp.Generation
    if cmp.Status.SyncedGeneration = "" ∨ cmp.Status.SyncedGeneration ≠ expected then true
    else decide (cmp.Status.LastSyncedAt + cmp.Spec.SyncInterval < now)
  | _ => false

/-- `getRequeueResult`: the not-due requeue decision.  Times in
nanoseconds; `time.Since(x)` is `now - x`. -/
def getRequeueResult (cmp : ConfigMapPropagation) (now : Int) : CtrlResult :=
  if cmp.Spec.SyncMode = "Periodic" ∨ cmp.Spec.SyncMode = "OnChange" then
    { Requeue := false, RequeueAfter := 0 }
  else
    let timeSinceLastSync := now - cmp.Status.LastSyncedAt
    let refreshInterval := cmp.Spec.SyncInterval
    if timeSinceLastSync < 0 then { Requeue := true, RequeueAfter := 0 }
    else if timeSinceLastSync < refreshInterval then
      { Requeue := false, RequeueAfter := refreshInterval - timeSinceLastSync }
    else { Requeue := false, RequeueAfter := 0 }

/-! The deletion orchestrator (`HandleDelete` from deletion_targets.go)
and the deletion branch of `Reconcile`.  Discovery is passed in as the
target list, and the per-target delete/orphan outcomes as oracles,
since their failures come from remote I/O. -/

/-- `fmt.Sprintf("%s/%s", t.Namespace, t.ConfigmapName)` joined by ",". -/
def joinTargetNames (ts : List PropagatorTarget) : String :=
  String.intercalate "," (ts.map (fun t => t.Namespace ++ "/" ++ t.ConfigmapName))

/-- The per-target error of the `HandleDelete` loop body: the deletion
policy switch has no default arm, so `err` stays nil for any other
policy value. -/
def perTargetDeleteErr (cmp : ConfigMapPropagation)
    (deleteErr orphanErr : PropagatorTarget → Option GoError)
    (t : PropagatorTarget) : Option GoError :=
  match cmp.Spec.DeletionPolicy with
  | "Delete" => deleteErr t
  | "Orphan" => orphanErr t
  | _ => none

/-- The `failedTargets` accumulation of the `HandleDelete` loop. -/
def handleDeleteFailed (cmp : ConfigMapPropagation)
    (deleteErr orphanErr : PropagatorTarget → Option GoError)
    (targets : List PropagatorTarget) : List PropagatorTarget :=
  targets.filter (fun t => (perTargetDeleteErr cmp deleteErr orphanErr t).isSome)

/-- `HandleDelete`: no-op without the finalizer; otherwise process every
discovered target, and either fail with the `ErrDeletingTargets`
message rendered via `%v` (not `%w`, so nothing is wrapped) listing the
failed targets, or remove the finalizer.  The trailing `r.Update`
persisting the finalizer removal is modelled as succeeding. -/
def handleDelete (cmp : ConfigMapPropagation) (targets : List PropagatorTarget)
    (deleteErr orphanErr : PropagatorTarget → Option GoError) :
    ConfigMapPropagation × Option GoError :=
  if FinalizerName ∈ cmp.Finalizers then
    if (handleDeleteFailed cmp deleteErr orphanErr targets).length > 0 then
      (cmp, some (GoError.errorf (goMsg ErrDeletingTargets ++ ": " ++
        joinTargetNames (handleDeleteFailed cmp deleteErr orphanErr targets))))
    else
      ({ cmp with Finalizers := cmp.Finalizers.filter (fun f => f ≠ FinalizerName) }, none)
  else (cmp, none)

/-- The deletion branch of `Reconcile` (controller file lines 71-82):
on a `HandleDelete` error, requeue after 30s when `errors.Is` matches
`ErrDeletingTargets`, else return the error. -/
def reconcileDeleteBranch (cmp : ConfigMapPropagation) (targets : List PropagatorTarget)
    (deleteErr orphanErr : PropagatorTarget → Option GoError) :
    CtrlResult × Option GoError :=
  match (handleDelete cmp targets deleteErr orphanErr).2 with
  | some e =>
    if errorsIs e ErrDeletingTargets then
      ({ Requeue := false, RequeueAfter := 30000000000 }, none)
    else ({ Requeue := false, RequeueAfter := 0 }, some e)
  | none => ({ Requeue := false, RequeueAfter := 0 }, none)

/-! Concrete fixtures used by counterexamples and witnesses. -/

/-- A Periodic source whose generation is already synced. -/
def cexPeriodicCmp : ConfigMapPropagation :=
  { Namespace := "default", Name := "prop", UID := "u1", Generation := 1,
    Finalizers := [FinalizerName],
    Spec := { SourceName := "src", SourceNamespace := "default",
              PropagationPolicy := "Merge", DeletionPolicy := "Delete",
              SyncMode := "Periodic", SyncInterval := 100 },
    Status := { SyncedGeneration := "1", LastSuccessfulSync := 1, LastSyncedAt := 0 } }

/-- The same source with sync mode CreatedOnce. -/
def cexCreatedOnceCmp : ConfigMapPropagation :=
  { cexPeriodicCmp with
    Spec := { cexPeriodicCmp.Spec with SyncMode := "CreatedOnce" } }

/-- A source being deleted, with finalizer and Delete policy. -/
def cexDeleteCmp : ConfigMapPropagation := cexPeriodicCmp

/-- A source whose deletion policy is the empty string. -/
def cexNoPolicyCmp : ConfigMapPropagation :=
  { cexPeriodicCmp with
    Spec := { cexPeriodicCmp.Spec with DeletionPolicy := "" } }

def cexFailTarget : PropagatorTarget := { ConfigmapName := "cm1", Namespace := "ns1" }

/-- An oracle under which every delete/orphan attempt fails. -/
def cexFailOracle : PropagatorTarget → Option GoError :=
  fun _ => some (GoError.errorf "boom")

/-- An oracle under which every delete/orphan attempt succeeds. -/
def cexOkOracle : PropagatorTarget → Option GoError := fun _ => none

/-- A target ConfigMap owned by `cexDeleteCmp`. -/
def cexOwnedCM : ConfigMap :=
  { Namespace := "ns1", Name := "cm1",
    Labels := [(OwnerLabelKey, ownerLabelValue cexDeleteCmp)],
    Annotations := [(OwnerUIDAnnotationKey, "u1")], Data := [] }

/-- Target and source ConfigMaps realizing the spec's merge example. -/
def cexTargetCM : ConfigMap :=
  { Namespace := "ns1", Name := "cm1",
    Labels := [(OwnerLabelKey, ownerLabelValue cexPeriodicCmp)],
    Annotations := [], Data := [("k2", "old"), ("k3", "v3")] }

def cexSrcCM : ConfigMap :=
  { Namespace := "default", Name := "src", Labels := [], Annotations := [],
    Data := [("k1", "v1"), ("k2", "v2")] }

/-- A pre-existing, unowned ConfigMap sitting at the desired target
location: the create loop adopts it (stamps markers only, payload
untouched), so the payload write is deferred to the next pass. -/
def cexPlainCM : ConfigMap :=
  { Namespace := "ns1", Name := "cm1", Labels := [], Annotations := [],
    Data := [("k9", "x")] }

theorem mlookup_eq_none_of_not_mem {m : Smap} {k : String}
    (h : k ∉ mkeys m) : mlookup m k = none := by
  induction m with
  | nil => rfl
  | cons kv rest ih =>
    simp only [mkeys, List.map_cons, List.mem_cons, not_or] at h
    simp only [mlookup]
    rw [if_neg (fun hh => h.1 hh.symm)]
    exact ih h.2

theorem mem_mkeys_of_mlookup_eq_some {m : Smap} {k v : String}
    (h : mlookup m k = some v) : k ∈ mkeys m := by
  induction m with
  | nil => simp [mlookup] at h
  | cons kv rest ih =>
    simp only [mlookup] at h
    simp only [mkeys, List.map_cons, List.mem_cons]
    by_cases hk : kv.1 = k
    · exact Or.inl hk.symm
    · rw [if_neg hk] at h
      exact Or.inr (ih h)

theorem mlookup_eq_some_iff_mem {m : Smap} (hm : (mkeys m).Nodup)
    {k v : String} : mlookup m k = some v ↔ (k, v) ∈ m := by
  induction m with
  | nil => simp [mlookup]
  | cons kv rest ih =>
    obtain ⟨k1, v1⟩ := kv
    simp only [mkeys, List.map_cons, List.nodup_cons] at hm
    simp only [mlookup, List.mem_cons]
    by_cases hk : k1 = k
    · subst hk
      rw [if_pos rfl]
      simp only [Option.some.injEq, Prod.mk.injEq]
      constructor
      · intro h
        exact Or.inl ⟨trivial, h.symm⟩
      · rintro (⟨-, h⟩ | h)
        · exact h.symm
        · exact absurd (List.mem_map_of_mem Prod.fst h) hm.1
    · rw [if_neg hk, ih hm.2]
      constructor
      · exact Or.inr
      · rintro (h | h)
        · rw [Prod.mk.injEq] at h
          exact absurd h.1.symm hk
        · exact h

theorem mlookup_mupsert (m : Smap) (k v k' : String) :
    mlookup (mupsert m k v) k' = if k = k' then some v else mlookup m k' := by
  induction m with
  | nil => simp [mupsert, mlookup]
  | cons kv rest ih =>
    simp only [mupsert]
    by_cases hk : kv.1 = k
    · rw [if_pos hk]
      simp only [mlookup]
      by_cases hk' : k = k'
      · rw [if_pos hk', if_pos hk']
      · rw [if_neg hk', if_neg hk', if_neg (by rw [hk]; exact hk')]
    · rw [if_neg hk]
      simp only [mlookup]
      by_cases hkv : kv.1 = k'
      · rw [if_pos hkv, if_neg (by rintro rfl; exact hk hkv), if_pos hkv]
      · rw [if_neg hkv, ih]
        by_cases hkk' : k = k'
        · rw [if_pos hkk', if_pos hkk']
        · rw [if_neg hkk', if_neg hkk', if_neg hkv]

theorem mem_mkeys_mupsert {m : Smap} {k v x : String} :
    x ∈ mkeys (mupsert m k v) ↔ x ∈ mkeys m ∨ x = k := by
  induction m with
  | nil => simp [mupsert, mkeys, eq_comm]
  | cons kv rest ih =>
    simp only [mupsert]
    by_cases hk : kv.1 = k
    · rw [if_pos hk]
      simp only [mkeys, List.map_cons, List.mem_cons]
      rw [hk]
      tauto
    · rw [if_neg hk]
      simp only [mkeys, List.map_cons, List.mem_cons] at *
      rw [ih]
      tauto

theorem nodup_mkeys_mupsert {m : Smap} (hm : (mkeys m).Nodup)
    (k v : String) : (mkeys (mupsert m k v)).Nodup := by
  induction m with
  | nil => simp [mupsert, mkeys]
  | cons kv rest ih =>
    simp only [mkeys, List.map_cons, List.nodup_cons] at hm
    simp only [mupsert]
    by_cases hk : kv.1 = k
    · rw [if_pos hk]
      simp only [mkeys, List.map_cons, List.nodup_cons]
      exact ⟨by rw [← hk]; exact hm.1, hm.2⟩
    · rw [if_neg hk]
      simp only [mkeys, List.map_cons, List.nodup_cons]
      refine ⟨?_, ih hm.2⟩
      intro hmem
      rcases mem_mkeys_mupsert.1 hmem with h | h
      · exact hm.1 h
      · exact hk h

theorem mlookup_minsertAll (s : Smap) (hs : (mkeys s).Nodup) :
    ∀ (t : Smap) (k : String),
      mlookup (minsertAll t s) k =
        match mlookup s k with
        | some v => some v
        | none => mlookup t k := by
  induction s with
  | nil => intro t k; simp [minsertAll, mlookup]
  | cons kv rest ih =>
    intro t k
    simp only [mkeys, List.map_cons, List.nodup_cons] at hs
    have step : minsertAll t (kv :: rest) = minsertAll (mupsert t kv.1 kv.2) rest := rfl
    rw [step, ih hs.2]
    simp only [mlookup]
    by_cases hk : kv.1 = k
    · have hnone : mlookup rest k = none := by
        apply mlookup_eq_none_of_not_mem
        rw [← hk]
        exact hs.1
      rw [if_pos hk, hnone, mlookup_mupsert, if_pos hk]
    · rw [if_neg hk]
      cases h : mlookup rest k with
      | some v => rfl
      | none => simp only [mlookup_mupsert, if_neg hk]

theorem nodup_mkeys_minsertAll (s : Smap) :
    ∀ (t : Smap), (mkeys t).Nodup → (mkeys (minsertAll t s)).Nodup := by
  induction s with
  | nil => intro t ht; exact ht
  | cons kv rest ih =>
    intro t ht
    exact ih (mupsert t kv.1 kv.2) (nodup_mkeys_mupsert ht kv.1 kv.2)

theorem msubset_iff {a b : Smap} (ha : (mkeys a).Nodup) :
    msubset a b = true ↔ ∀ k v, mlookup a k = some v → mlookup b k = some v := by
  simp only [msubset, List.all_eq_true, decide_eq_true_eq]
  constructor
  · intro h k v hav
    exact h (k, v) ((mlookup_eq_some_iff_mem ha).1 hav)
  · intro h kv hkv
    apply h kv.1 kv.2
    apply (mlookup_eq_some_iff_mem ha).2
    cases kv
    exact hkv

theorem mequiv_iff {a b : Smap} (ha : (mkeys a).Nodup) (hb : (mkeys b).Nodup) :
    mequiv a b = true ↔ ∀ k, mlookup a k = mlookup b k := by
  simp only [mequiv, Bool.and_eq_true, msubset_iff ha, msubset_iff hb]
  constructor
  · rintro ⟨hab, hba⟩ k
    cases h : mlookup a k with
    | some v => exact (hab k v h).symm
    | none =>
      cases h' : mlookup b k with
      | some w => rw [← h, hba k w h']
      | none => rfl
  · intro h
    constructor
    · intro k v hav; rw [← h k]; exact hav
    · intro k v hbv; rw [h k]; exact hbv

theorem mlookup_mremove (m : Smap) (k k' : String) :
    mlookup (mremove m k) k' = if k = k' then none else mlookup m k' := by
  induction m with
  | nil => simp [mremove, mlookup]
  | cons kv rest ih =>
    simp only [mremove]
    by_cases hk : kv.1 = k
    · rw [if_pos hk, ih]
      by_cases hkk' : k = k'
      · rw [if_pos hkk', if_pos hkk']
      · rw [if_neg hkk', if_neg hkk']
        simp only [mlookup]
        rw [if_neg (by rw [hk]; exact hkk')]
    · rw [if_neg hk]
      by_cases hkk' : k = k'
      · subst hkk'
        rw [if_pos rfl]
        simp only [mlookup]
        rw [if_neg hk, ih, if_pos rfl]
      · rw [if_neg hkk']
        simp only [mlookup]
        by_cases hkv : kv.1 = k'
        · rw [if_pos hkv, if_pos hkv]
        · rw [if_neg hkv, if_neg hkv, ih, if_neg hkk']

theorem tmapHasKey_iff {m : List (String × PropagatorTarget)} {k : String} :
    tmapHasKey m k = true ↔ k ∈ m.map Prod.fst := by
  simp [tmapHasKey, List.any_eq_true, List.mem_map]

theorem mem_keys_tmapInsert {m : List (String × PropagatorTarget)}
    {k x : String} {t : PropagatorTarget} :
    x ∈ (tmapInsert m k t).map Prod.fst ↔ x ∈ m.map Prod.fst ∨ x = k := by
  induction m with
  | nil => simp [tmapInsert, eq_comm]
  | cons kv rest ih =>
    simp only [tmapInsert]
    by_cases hk : kv.1 = k
    · rw [if_pos hk]
      simp only [List.map_cons, List.mem_cons]
      rw [hk]
      tauto
    · rw [if_neg hk]
      simp only [List.map_cons, List.mem_cons] at *
      rw [ih]
      tauto

theorem mem_tmapInsert {m : List (String × PropagatorTarget)}
    {k : String} {t : PropagatorTarget} {kv : String × PropagatorTarget}
    (h : kv ∈ tmapInsert m k t) : kv ∈ m ∨ kv = (k, t) := by
  induction m with
  | nil =>
    simp only [tmapInsert, List.mem_singleton] at h
    exact Or.inr h
  | cons kv' rest ih =>
    simp only [tmapInsert] at h
    by_cases hk : kv'.1 = k
    · rw [if_pos hk] at h
      rcases List.mem_cons.1 h with h | h
      · exact Or.inr h
      · exact Or.inl (List.mem_cons_of_mem kv' h)
    · rw [if_neg hk] at h
      rcases List.mem_cons.1 h with h | h
      · exact Or.inl (h ▸ List.mem_cons_self kv' rest)
      · rcases ih h with h' | h'
        · exact Or.inl (List.mem_cons_of_mem kv' h')
        · exact Or.inr h'

theorem mem_keys_buildTargetMap_aux (ts : List PropagatorTarget) :
    ∀ (acc : List (String × PropagatorTarget)) (k : String),
      (k ∈ (ts.foldl (fun m t => tmapInsert m (targetKey t) t) acc).map Prod.fst ↔
        k ∈ acc.map Prod.fst ∨ k ∈ ts.map targetKey) := by
  induction ts with
  | nil => intro acc k; simp
  | cons t rest ih =>
    intro acc k
    simp only [List.foldl_cons]
    rw [ih]
    rw [mem_keys_tmapInsert]
    simp only [List.map_cons, List.mem_cons]
    tauto

theorem mem_keys_buildTargetMap {ts : List PropagatorTarget} {k : String} :
    k ∈ (buildTargetMap ts).map Prod.fst ↔ k ∈ ts.map targetKey := by
  rw [buildTargetMap, mem_keys_buildTargetMap_aux]
  simp

theorem mem_buildTargetMap_aux (ts : List PropagatorTarget) :
    ∀ (acc : List (String × PropagatorTarget))
      (kv : String × PropagatorTarget),
      kv ∈ ts.foldl (fun m t => tmapInsert m (targetKey t) t) acc →
      kv ∈ acc ∨ (kv.1 = targetKey kv.2 ∧ kv.2 ∈ ts) := by
  induction ts with
  | nil => intro acc kv h; exact Or.inl h
  | cons t rest ih =>
    intro acc kv h
    simp only [List.foldl_cons] at h
    rcases ih _ kv h with h' | h'
    · rcases mem_tmapInsert h' with h'' | h''
      · exact Or.inl h''
      · subst h''
        exact Or.inr ⟨rfl, List.mem_cons_self t rest⟩
    · exact Or.inr ⟨h'.1, List.mem_cons_of_mem t h'.2⟩

theorem mem_buildTargetMap {ts : List PropagatorTarget}
    {kv : String × PropagatorTarget} (h : kv ∈ buildTargetMap ts) :
    kv.1 = targetKey kv.2 ∧ kv.2 ∈ ts := by
  rcases mem_buildTargetMap_aux ts [] kv h with h' | h'
  · simp at h'
  · exact h'

theorem tmapHasKey_eq_false_iff {m : List (String × PropagatorTarget)} {k : String} :
    tmapHasKey m k = false ↔ k ∉ m.map Prod.fst := by
  rw [← tmapHasKey_iff]
  cases h : tmapHasKey m k <;> simp [h]

theorem mem_keySet_toCreate {d c : List PropagatorTarget} {k : String} :
    k ∈ keySet (toCreate d c) ↔ k ∈ keySet d ∧ k ∉ keySet c := by
  simp only [keySet, List.mem_toFinset, toCreate, List.mem_map, List.mem_filter]
  constructor
  · rintro ⟨t, ⟨kv, ⟨hm, hp⟩, rfl⟩, rfl⟩
    obtain ⟨hk, hmem⟩ := mem_buildTargetMap hm
    refine ⟨⟨kv.2, hmem, rfl⟩, ?_⟩
    rintro ⟨t', ht', hkey⟩
    rw [Bool.not_eq_true'] at hp
    rw [tmapHasKey_eq_false_iff] at hp
    apply hp
    rw [hk, ← hkey]
    exact mem_keys_buildTargetMap.2 (List.mem_map.2 ⟨t', ht', rfl⟩)
  · rintro ⟨⟨t, ht, rfl⟩, hc⟩
    have hd : targetKey t ∈ (buildTargetMap d).map Prod.fst :=
      mem_keys_buildTargetMap.2 (List.mem_map.2 ⟨t, ht, rfl⟩)
    obtain ⟨kv, hkv, hfst⟩ := List.mem_map.1 hd
    obtain ⟨hk, _⟩ := mem_buildTargetMap hkv
    refine ⟨kv.2, ⟨kv, ⟨hkv, ?_⟩, rfl⟩, by rw [← hk, hfst]⟩
    rw [Bool.not_eq_true', tmapHasKey_eq_false_iff]
    intro habs
    apply hc
    rw [mem_keys_buildTargetMap] at habs
    obtain ⟨t', ht', hkey⟩ := List.mem_map.1 habs
    exact ⟨t', ht', by rw [hkey, hfst]⟩

theorem mem_keySet_toUpdate {d c : List PropagatorTarget} {k : String} :
    k ∈ keySet (toUpdate d c) ↔ k ∈ keySet d ∧ k ∈ keySet c := by
  simp only [keySet, List.mem_toFinset, toUpdate, List.mem_map, List.mem_filter]
  constructor
  · rintro ⟨t, ⟨kv, ⟨hm, hp⟩, rfl⟩, rfl⟩
    obtain ⟨hk, hmem⟩ := mem_buildTargetMap hm
    refine ⟨⟨kv.2, hmem, rfl⟩, ?_⟩
    rw [tmapHasKey_iff, mem_keys_buildTargetMap] at hp
    obtain ⟨t', ht', hkey⟩ := List.mem_map.1 hp
    exact ⟨t', ht', hkey.trans hk⟩
  · rintro ⟨⟨t, ht, rfl⟩, ⟨t', ht', hkey⟩⟩
    have hd : targetKey t ∈ (buildTargetMap d).map Prod.fst :=
      mem_keys_buildTargetMap.2 (List.mem_map.2 ⟨t, ht, rfl⟩)
    obtain ⟨kv, hkv, hfst⟩ := List.mem_map.1 hd
    obtain ⟨hk, _⟩ := mem_buildTargetMap hkv
    refine ⟨kv.2, ⟨kv, ⟨hkv, ?_⟩, rfl⟩, by rw [← hk, hfst]⟩
    rw [tmapHasKey_iff, mem_keys_buildTargetMap, hfst]
    exact List.mem_map.2 ⟨t', ht', hkey⟩

theorem mem_keySet_toDelete {d c : List PropagatorTarget} {k : String} :
    k ∈ keySet (toDelete d c) ↔ k ∈ keySet c ∧ k ∉ keySet d := by
  simp only [keySet, List.mem_toFinset, toDelete, List.mem_map, List.mem_filter]
  constructor
  · rintro ⟨t, ⟨kv, ⟨hm, hp⟩, rfl⟩, rfl⟩
    obtain ⟨hk, hmem⟩ := mem_buildTargetMap hm
    refine ⟨⟨kv.2, hmem, rfl⟩, ?_⟩
    rintro ⟨t', ht', hkey⟩
    rw [Bool.not_eq_true'] at hp
    rw [tmapHasKey_eq_false_iff] at hp
    apply hp
    rw [hk, ← hkey]
    exact mem_keys_buildTargetMap.2 (List.mem_map.2 ⟨t', ht', rfl⟩)
  · rintro ⟨⟨t, ht, rfl⟩, hc⟩
    have hd : targetKey t ∈ (buildTargetMap c).map Prod.fst :=
      mem_keys_buildTargetMap.2 (List.mem_map.2 ⟨t, ht, rfl⟩)
    obtain ⟨kv, hkv, hfst⟩ := List.mem_map.1 hd
    obtain ⟨hk, _⟩ := mem_buildTargetMap hkv
    refine ⟨kv.2, ⟨kv, ⟨hkv, ?_⟩, rfl⟩, by rw [← hk, hfst]⟩
    rw [Bool.not_eq_true', tmapHasKey_eq_false_iff]
    intro habs
    apply hc
    rw [mem_keys_buildTargetMap] at habs
    obtain ⟨t', ht', hkey⟩ := List.mem_map.1 habs
    exact ⟨t', ht', by rw [hkey, hfst]⟩

/-! Claim theorems. -/

/-- C1: for every pair of finite desired and current target sets D and C
(each keyed by namespace/name), the diff computed by SyncTargets
satisfies toCreate = D \ C, toUpdate = D ∩ C, toDelete = C \ D, and the
three sets are pairwise disjoint and together cover D ∪ C. -/
theorem c1_diff_partition (desired current : List PropagatorTarget) :
    keySet (toCreate desired current) = keySet desired \ keySet current ∧
    keySet (toUpdate desired current) = keySet desired ∩ keySet current ∧
    keySet (toDelete desired current) = keySet current \ keySet desired ∧
    Disjoint (keySet (toCreate desired current)) (keySet (toUpdate desired current)) ∧
    Disjoint (keySet (toCreate desired current)) (keySet (toDelete desired current)) ∧
    Disjoint (keySet (toUpdate desired current)) (keySet (toDelete desired current)) ∧
    keySet (toCreate desired current) ∪ keySet (toUpdate desired current) ∪
      keySet (toDelete desired current) = keySet desired ∪ keySet current := by
  have hc : keySet (toCreate desired current) = keySet desired \ keySet current := by
    ext k
    rw [mem_keySet_toCreate, Finset.mem_sdiff]
  have hu : keySet (toUpdate desired current) = keySet desired ∩ keySet current := by
    ext k
    rw [mem_keySet_toUpdate, Finset.mem_inter]
  have hd : keySet (toDelete desired current) = keySet current \ keySet desired := by
    ext k
    rw [mem_keySet_toDelete, Finset.mem_sdiff]
  refine ⟨hc, hu, hd, ?_, ?_, ?_, ?_⟩
  · rw [hc, hu, Finset.disjoint_left]
    intro a ha hb
    exact (Finset.mem_sdiff.1 ha).2 (Finset.mem_inter.1 hb).2
  · rw [hc, hd, Finset.disjoint_left]
    intro a ha hb
    exact (Finset.mem_sdiff.1 ha).2 (Finset.mem_sdiff.1 hb).1
  · rw [hu, hd, Finset.disjoint_left]
    intro a ha hb
    exact (Finset.mem_sdiff.1 hb).2 (Finset.mem_inter.1 ha).1
  · rw [hc, hu, hd]
    ext a
    simp only [Finset.mem_union, Finset.mem_sdiff, Finset.mem_inter]
    tauto

/-! Digits of `fmt.Sprintf("%d", _)` are never empty; needed to reduce
the redundant `SyncedGeneration == ""` disjunct of `shouldRefresh`. -/

theorem length_le_toDigitsCore (b : Nat) :
    ∀ (fuel n : Nat) (ds : List Char),
      ds.length ≤ (Nat.toDigitsCore b fuel n ds).length := by
  intro fuel
  induction fuel with
  | zero => intro n ds; simp [Nat.toDigitsCore]
  | succ f ih =>
    intro n ds
    simp only [Nat.toDigitsCore]
    split
    · simp
    · calc ds.length ≤ (Nat.digitChar (n % b) :: ds).length := by simp
        _ ≤ _ := ih _ _

theorem natRepr_ne_empty (n : Nat) : Nat.repr n ≠ "" := by
  have h : 1 ≤ (Nat.toDigits 10 n).length := by
    show 1 ≤ (Nat.toDigitsCore 10 (n + 1) n []).length
    simp only [Nat.toDigitsCore]
    split
    · simp
    · have := length_le_toDigitsCore 10 n (n / 10) [Nat.digitChar (n % 10)]
      simpa using this
  intro habs
  have hdata : Nat.toDigits 10 n = [] := by
    have := congrArg String.data habs
    simpa [Nat.repr, List.asString] using this
  rw [hdata] at h
  simp at h

theorem int_toString_ne_empty (g : Int) : toString g ≠ "" := by
  cases g with
  | ofNat n =>
    show Nat.repr n ≠ ""
    exact natRepr_ne_empty n
  | negSucc n =>
    show "-" ++ Nat.repr (n + 1) ≠ ""
    intro habs
    have hlen := congrArg String.length habs
    rw [String.length_append] at hlen
    have h1 : ("-" : String).length = 1 := rfl
    have h0 : ("" : String).length = 0 := rfl
    rw [h1, h0] at hlen
    omega

/-- C5 (code evaluation): for a Periodic source that is not yet due
(lastSyncedAt = 0, interval = 100, now = 30), `getRequeueResult`
requests NO wake-up, while the same status under CreatedOnce receives
the `interval − elapsed` wake-up of 70 — the inverse of the claim. -/
theorem c5_requeue_code_eval :
    shouldRefresh cexPeriodicCmp 30 = false ∧
    getRequeueResult cexPeriodicCmp 30 = { Requeue := false, RequeueAfter := 0 } ∧
    shouldRefresh cexCreatedOnceCmp 30 = false ∧
    getRequeueResult cexCreatedOnceCmp 30 = { Requeue := false, RequeueAfter := 70 } := by
  refine ⟨by decide, by decide, by decide, by decide⟩

/-- C6 counterexample: a Periodic source with unchanged generation at
exactly `now − lastSyncedAt = interval` is NOT due, because
`lastSyncedAt.Add(interval).Before(now)` is strict; the claim's
"at least the configured interval" would make it due. -/
theorem c6_counterexample :
    cexPeriodicCmp.Spec.SyncMode = "Periodic" ∧
    cexPeriodicCmp.Status.SyncedGeneration = toString cexPeriodicCmp.Generation ∧
    100 - cexPeriodicCmp.Status.LastSyncedAt ≥ cexPeriodicCmp.Spec.SyncInterval ∧
    shouldRefresh cexPeriodicCmp 100 = false := by
  refine ⟨rfl, by decide, by decide, by decide⟩

/-- C6 amended: the sync-due decision is a pure function of sync mode and
status fields with: CreatedOnce due iff the source was never synced
before (both never-synced indicators unset; statuses are well-formed in
that the two indicators agree); OnChange due iff the current generation
differs from the last-synced generation; Periodic due iff the
generation changed OR now minus lastSyncedAt is STRICTLY GREATER than
the configured interval; and any unrecognized sync mode evaluates to
not due. -/
theorem c6_shouldRefresh_characterization (cmp : ConfigMapPropagation) (now : Int)
    (hwf : cmp.Status.SyncedGeneration = "" ↔ cmp.Status.LastSuccessfulSync = 0) :
    (cmp.Spec.SyncMode = "CreatedOnce" →
      (shouldRefresh cmp now = true ↔
        (cmp.Status.SyncedGeneration = "" ∧ cmp.Status.LastSuccessfulSync = 0))) ∧
    (cmp.Spec.SyncMode = "OnChange" →
      (shouldRefresh cmp now = true ↔
        cmp.Status.SyncedGeneration ≠ toString cmp.Generation)) ∧
    (cmp.Spec.SyncMode = "Periodic" →
      (shouldRefresh cmp now = true ↔
        (cmp.Status.SyncedGeneration ≠ toString cmp.Generation ∨
          now - cmp.Status.LastSyncedAt > cmp.Spec.SyncInterval))) ∧
    (cmp.Spec.SyncMode ≠ "CreatedOnce" → cmp.Spec.SyncMode ≠ "OnChange" →
      cmp.Spec.SyncMode ≠ "Periodic" → shouldRefresh cmp now = false) := by
  refine ⟨?_, ?_, ?_, ?_⟩
  · intro hmode
    by_cases hA : cmp.Status.SyncedGeneration = ""
    · have hB := hwf.1 hA
      simp [shouldRefresh, hmode, hA, hB]
    · have hB : ¬cmp.Status.LastSuccessfulSync = 0 := fun h => hA (hwf.2 h)
      simp [shouldRefresh, hmode, hA, hB]
  · intro hmode
    by_cases hA : cmp.Status.SyncedGeneration = ""
    · simp only [shouldRefresh, hmode, hA]
      simp only [eq_self_iff_true, true_or, if_true, true_iff]
      exact fun h => int_toString_ne_empty cmp.Generation h.symm
    · simp [shouldRefresh, hmode, hA]
  · intro hmode
    by_cases hA : cmp.Status.SyncedGeneration = ""
    · simp only [shouldRefresh, hmode, hA]
      simp only [eq_self_iff_true, true_or, if_true, true_iff]
      refine Or.inl ?_
      exact fun h => int_toString_ne_empty cmp.Generation h.symm
    · by_cases hG : cmp.Status.SyncedGeneration = toString cmp.Generation
      · simp only [shouldRefresh, hmode, hG]
        split
        · rename_i hcond
          exfalso
          rcases hcond with h | h
          · exact int_toString_ne_empty cmp.Generation h
          · exact h rfl
        · simp only [decide_eq_true_eq]
          constructor
          · intro h
            exact Or.inr (by omega)
          · rintro (h | h)
            · exact absurd rfl h
            · omega
      · simp [shouldRefresh, hmode, hA, hG]
  · intro h1 h2 h3
    rw [shouldRefresh]
    split
    · exact absurd (by assumption) h1
    · exact absurd (by assumption) h2
    · exact absurd (by assumption) h3
    · rfl

/-- C6 witness: the characterization applied to the concrete Periodic
source at now = 150. -/
theorem c6_shouldRefresh_characterization_witness :
    shouldRefresh cexPeriodicCmp 150 = true ↔
      (cexPeriodicCmp.Status.SyncedGeneration ≠ toString cexPeriodicCmp.Generation ∨
        150 - cexPeriodicCmp.Status.LastSyncedAt > cexPeriodicCmp.Spec.SyncInterval) :=
  (c6_shouldRefresh_characterization cexPeriodicCmp 150 (by decide)).2.2.1 rfl

/-- C7 (code evaluation): when a target fails during deletion,
`HandleDelete` builds its error with `%v` (no wrapping), so
`errors.Is(err, ErrDeletingTargets)` is false and the `Reconcile`
deletion branch returns the error instead of the 30-second requeue. -/
theorem c7_requeue_code_eval :
    (handleDelete cexDeleteCmp [cexFailTarget] cexFailOracle cexFailOracle).2 =
      some (GoError.errorf
        "failed to remove/orphan ConfigMaps of targets: ns1/cm1") ∧
    errorsIs (GoError.errorf "failed to remove/orphan ConfigMaps of targets: ns1/cm1")
      ErrDeletingTargets = false ∧
    reconcileDeleteBranch cexDeleteCmp [cexFailTarget] cexFailOracle cexFailOracle =
      ({ Requeue := false, RequeueAfter := 0 },
        some (GoError.errorf
          "failed to remove/orphan ConfigMaps of targets: ns1/cm1")) := by
  refine ⟨by decide, by decide, by decide⟩

/-- C3 (code evaluation): with one target in the update set whose
update attempt fails (source ConfigMap absent), the summary counts
zero failures and `SyncTargets` reports success, even though the
detail list records the failed attempt. -/
theorem c3_failed_count_code_eval :
    (updateIfNeeded cexDeleteCmp [cexOwnedCM]
      { ConfigmapName := "cm1", Namespace := "ns1" }).2.2.isSome = true ∧
    (syncPass cexDeleteCmp [{ ConfigmapName := "cm1", Namespace := "ns1" }]
      [cexOwnedCM]).1.summary.Failed = 0 ∧
    (syncPass cexDeleteCmp [{ ConfigmapName := "cm1", Namespace := "ns1" }]
      [cexOwnedCM]).1.statuses =
      [{ Namespace := "ns1", Name := "cm1", State := "Failed",
         Reason := "failed to get source configmap for update",
         Message := "Failed to update the configmap" }] ∧
    (syncPass cexDeleteCmp [{ ConfigmapName := "cm1", Namespace := "ns1" }]
      [cexOwnedCM]).2 = none := by
  refine ⟨by decide, by decide, by decide, by decide⟩

theorem deleteStep_other {cmp : ConfigMapPropagation}
    (h1 : cmp.Spec.DeletionPolicy ≠ "Delete")
    (h2 : cmp.Spec.DeletionPolicy ≠ "Orphan")
    (ps : PassState) (t : PropagatorTarget) : deleteStep cmp ps t = ps := by
  rw [deleteStep]
  split
  · exact absurd (by assumption) h1
  · exact absurd (by assumption) h2
  · rfl

theorem runDeleteLoop_other {cmp : ConfigMapPropagation}
    (h1 : cmp.Spec.DeletionPolicy ≠ "Delete")
    (h2 : cmp.Spec.DeletionPolicy ≠ "Orphan")
    (ps : PassState) (l : List PropagatorTarget) : runDeleteLoop cmp ps l = ps := by
  induction l generalizing ps with
  | nil => rfl
  | cons t rest ih =>
    rw [runDeleteLoop, List.foldl_cons, deleteStep_other h1 h2,
      show rest.foldl (deleteStep cmp) ps = runDeleteLoop cmp ps rest from rfl, ih]

theorem handleDeleteFailed_eq_nil_iff {cmp : ConfigMapPropagation}
    {deleteErr orphanErr : PropagatorTarget → Option GoError}
    {targets : List PropagatorTarget} :
    handleDeleteFailed cmp deleteErr orphanErr targets = [] ↔
      ∀ t ∈ targets, perTargetDeleteErr cmp deleteErr orphanErr t = none := by
  rw [handleDeleteFailed, List.filter_eq_nil_iff]
  constructor
  · intro h t ht
    exact Option.not_isSome_iff_eq_none.1 (h t ht)
  · intro h t ht
    simp [h t ht]

/-- C10: when the deletion policy is neither "Delete" nor "Orphan"
(e.g. the empty string), the toDelete loop of SyncTargets leaves the
store, the summary, the detail list and the write count untouched and
contributes no failure, and HandleDelete treats every discovered target
as successfully processed: it returns no error and removes the
finalizer. -/
theorem c10_unknown_policy_skips (cmp : ConfigMapPropagation) (ps : PassState)
    (l targets : List PropagatorTarget)
    (deleteErr orphanErr : PropagatorTarget → Option GoError)
    (hpol1 : cmp.Spec.DeletionPolicy ≠ "Delete")
    (hpol2 : cmp.Spec.DeletionPolicy ≠ "Orphan")
    (hfin : FinalizerName ∈ cmp.Finalizers) :
    runDeleteLoop cmp ps l = ps ∧
    (handleDelete cmp targets deleteErr orphanErr).2 = none ∧
    FinalizerName ∉ (handleDelete cmp targets deleteErr orphanErr).1.Finalizers := by
  have hper : ∀ t, perTargetDeleteErr cmp deleteErr orphanErr t = none := by
    intro t
    rw [perTargetDeleteErr]
    split
    · exact absurd (by assumption) hpol1
    · exact absurd (by assumption) hpol2
    · rfl
  have hnil : handleDeleteFailed cmp deleteErr orphanErr targets = [] :=
    handleDeleteFailed_eq_nil_iff.2 (fun t _ => hper t)
  have hhd : handleDelete cmp targets deleteErr orphanErr =
      ({ cmp with Finalizers := cmp.Finalizers.filter (fun f => f ≠ FinalizerName) }, none) := by
    rw [handleDelete, if_pos hfin, hnil]
    simp
  refine ⟨runDeleteLoop_other hpol1 hpol2 ps l, ?_, ?_⟩
  · rw [hhd]
  · rw [hhd]
    intro hmem
    rw [List.mem_filter] at hmem
    simpa using hmem.2

/-- C10 witness: empty deletion policy, one stray target, one discovered
target, applied at a concrete pass state. -/
theorem c10_unknown_policy_skips_witness :
    runDeleteLoop cexNoPolicyCmp
      { store := [cexOwnedCM], summary := TargetsSummary.init, statuses := [], writes := 0 }
      [cexFailTarget] =
      { store := [cexOwnedCM], summary := TargetsSummary.init, statuses := [], writes := 0 } ∧
    (handleDelete cexNoPolicyCmp [cexFailTarget] cexFailOracle cexFailOracle).2 = none ∧
    FinalizerName ∉
      (handleDelete cexNoPolicyCmp [cexFailTarget] cexFailOracle cexFailOracle).1.Finalizers :=
  c10_unknown_policy_skips cexNoPolicyCmp
    { store := [cexOwnedCM], summary := TargetsSummary.init, statuses := [], writes := 0 }
    [cexFailTarget] [cexFailTarget] cexFailOracle cexFailOracle
    (by decide) (by decide) (by decide)

/-- C2: for every source marked for deletion that carries the finalizer
and has a recognized deletion policy, HandleDelete removes the
finalizer iff every discovered target's delete/orphan attempt succeeded
(including the zero-target case); on any failure the source is left
unchanged (finalizer intact) and the returned error is the
ErrDeletingTargets message naming exactly the failed targets. -/
theorem c2_handleDelete_gating (cmp : ConfigMapPropagation)
    (targets : List PropagatorTarget)
    (deleteErr orphanErr : PropagatorTarget → Option GoError)
    (hfin : FinalizerName ∈ cmp.Finalizers)
    (hpol : cmp.Spec.DeletionPolicy = "Delete" ∨ cmp.Spec.DeletionPolicy = "Orphan") :
    (FinalizerName ∉ (handleDelete cmp targets deleteErr orphanErr).1.Finalizers ↔
      ∀ t ∈ targets, perTargetDeleteErr cmp deleteErr orphanErr t = none) ∧
    ((handleDelete cmp targets deleteErr orphanErr).2 = none ↔
      ∀ t ∈ targets, perTargetDeleteErr cmp deleteErr orphanErr t = none) ∧
    (handleDeleteFailed cmp deleteErr orphanErr targets ≠ [] →
      (handleDelete cmp targets deleteErr orphanErr).1 = cmp ∧
      (handleDelete cmp targets deleteErr orphanErr).2 =
        some (GoError.errorf (goMsg ErrDeletingTargets ++ ": " ++
          joinTargetNames (handleDeleteFailed cmp deleteErr orphanErr targets)))) := by
  by_cases hfail : (handleDeleteFailed cmp deleteErr orphanErr targets).length > 0
  · have hne : handleDeleteFailed cmp deleteErr orphanErr targets ≠ [] := by
      intro h
      rw [h] at hfail
      simp at hfail
    have h1 : handleDelete cmp targets deleteErr orphanErr =
        (cmp, some (GoError.errorf (goMsg ErrDeletingTargets ++ ": " ++
          joinTargetNames (handleDeleteFailed cmp deleteErr orphanErr targets)))) := by
      rw [handleDelete, if_pos hfin, if_pos hfail]
    rw [h1]
    refine ⟨?_, ?_, fun _ => ⟨rfl, rfl⟩⟩
    · constructor
      · intro h
        exact absurd hfin h
      · intro hall
        exact absurd (handleDeleteFailed_eq_nil_iff.2 hall) hne
    · constructor
      · intro h
        exact absurd h (by simp)
      · intro hall
        exact absurd (handleDeleteFailed_eq_nil_iff.2 hall) hne
  · have heq : handleDeleteFailed cmp deleteErr orphanErr targets = [] := by
      rcases h : handleDeleteFailed cmp deleteErr orphanErr targets with _ | ⟨a, l⟩
      · rfl
      · rw [h] at hfail
        simp at hfail
    have h1 : handleDelete cmp targets deleteErr orphanErr =
        ({ cmp with Finalizers := cmp.Finalizers.filter (fun f => f ≠ FinalizerName) },
          none) := by
      rw [handleDelete, if_pos hfin, if_neg hfail]
    rw [h1]
    refine ⟨?_, ?_, fun hne => absurd heq hne⟩
    · constructor
      · intro _
        exact handleDeleteFailed_eq_nil_iff.1 heq
      · intro _ hmem
        rw [List.mem_filter] at hmem
        simpa using hmem.2
    · constructor
      · intro _
        exact handleDeleteFailed_eq_nil_iff.1 heq
      · intro _
        rfl

/-- C2 witness: a source with the finalizer, Delete policy, one
discovered target whose deletion fails. -/
theorem c2_handleDelete_gating_witness :
    (FinalizerName ∉
        (handleDelete cexDeleteCmp [cexFailTarget] cexFailOracle cexOkOracle).1.Finalizers ↔
      ∀ t ∈ [cexFailTarget], perTargetDeleteErr cexDeleteCmp cexFailOracle cexOkOracle t = none) ∧
    ((handleDelete cexDeleteCmp [cexFailTarget] cexFailOracle cexOkOracle).2 = none ↔
      ∀ t ∈ [cexFailTarget], perTargetDeleteErr cexDeleteCmp cexFailOracle cexOkOracle t = none) ∧
    (handleDeleteFailed cexDeleteCmp cexFailOracle cexOkOracle [cexFailTarget] ≠ [] →
      (handleDelete cexDeleteCmp [cexFailTarget] cexFailOracle cexOkOracle).1 = cexDeleteCmp ∧
      (handleDelete cexDeleteCmp [cexFailTarget] cexFailOracle cexOkOracle).2 =
        some (GoError.errorf (goMsg ErrDeletingTargets ++ ": " ++
          joinTargetNames (handleDeleteFailed cexDeleteCmp cexFailOracle cexOkOracle
            [cexFailTarget])))) :=
  c2_handleDelete_gating cexDeleteCmp [cexFailTarget] cexFailOracle cexOkOracle
    (by decide) (Or.inl rfl)

theorem storeGet_some_key {st : Store} {ns name : String} {cm : ConfigMap}
    (h : storeGet st ns name = some cm) : cm.Namespace = ns ∧ cm.Name = name := by
  induction st with
  | nil => cases h
  | cons c rest ih =>
    simp only [storeGet] at h
    by_cases hc : c.Namespace = ns ∧ c.Name = name
    · rw [if_pos hc] at h
      cases h
      exact hc
    · rw [if_neg hc] at h
      exact ih h

theorem storeGet_storeUpsert (st : Store) (cm : ConfigMap) (ns name : String) :
    storeGet (storeUpsert st cm) ns name =
      if cm.Namespace = ns ∧ cm.Name = name then some cm else storeGet st ns name := by
  induction st with
  | nil => simp [storeUpsert, storeGet]
  | cons c rest ih =>
    simp only [storeUpsert]
    by_cases hc : c.Namespace = cm.Namespace ∧ c.Name = cm.Name
    · rw [if_pos hc]
      simp only [storeGet]
      by_cases h2 : cm.Namespace = ns ∧ cm.Name = name
      · rw [if_pos h2, if_pos h2]
      · rw [if_neg h2, if_neg h2,
          if_neg (fun hh => h2 ⟨hc.1.symm.trans hh.1, hc.2.symm.trans hh.2⟩)]
    · rw [if_neg hc]
      simp only [storeGet]
      by_cases h3 : c.Namespace = ns ∧ c.Name = name
      · have h2 : ¬(cm.Namespace = ns ∧ cm.Name = name) :=
          fun hh => hc ⟨h3.1.trans hh.1.symm, h3.2.trans hh.2.symm⟩
        rw [if_pos h3, if_neg h2, if_pos h3]
      · rw [if_neg h3, ih]
        by_cases h2 : cm.Namespace = ns ∧ cm.Name = name
        · rw [if_pos h2, if_pos h2]
        · rw [if_neg h2, if_neg h2, if_neg h3]

theorem storeGet_storeDelete (st : Store) (ns name ns' name' : String) :
    storeGet (storeDelete st ns name) ns' name' =
      if ns = ns' ∧ name = name' then none else storeGet st ns' name' := by
  induction st with
  | nil => simp [storeDelete, storeGet]
  | cons c rest ih =>
    simp only [storeDelete]
    by_cases hc : c.Namespace = ns ∧ c.Name = name
    · rw [if_pos hc, ih]
      by_cases h2 : ns = ns' ∧ name = name'
      · rw [if_pos h2, if_pos h2]
      · rw [if_neg h2, if_neg h2]
        simp only [storeGet]
        rw [if_neg (fun hh => h2 ⟨hc.1.symm.trans hh.1, hc.2.symm.trans hh.2⟩)]
    · rw [if_neg hc]
      simp only [storeGet]
      by_cases h3 : c.Namespace = ns' ∧ c.Name = name'
      · have h2 : ¬(ns = ns' ∧ name = name') :=
          fun hh => hc ⟨hh.1 ▸ h3.1, hh.2 ▸ h3.2⟩
        rw [if_pos h3, if_neg h2, if_pos h3]
      · rw [if_neg h3, ih]
        by_cases h2 : ns = ns' ∧ name = name'
        · rw [if_pos h2, if_pos h2]
        · rw [if_neg h2, if_neg h2, if_neg h3]

/-- C9: for every target record, orphanConfigMap never removes an
ownership label or owner-UID annotation whose value does not match this
source's own identity, issues a write exactly when a matching marker is
present (and hence removed), treats a missing target as a no-op
success, and leaves the target's payload data - and every other
ConfigMap in the store - unchanged. -/
theorem c9_orphan_safety (cmp : ConfigMapPropagation) (st : Store) (ns name : String) :
    (storeGet st ns name = none → orphanConfigMap cmp st ns name = (st, false, none)) ∧
    (∀ cm, storeGet st ns name = some cm →
      (orphanConfigMap cmp st ns name).2.2 = none ∧
      ((orphanConfigMap cmp st ns name).2.1 = true ↔
        (mlookup cm.Labels OwnerLabelKey = some (ownerLabelValue cmp) ∨
          mlookup cm.Annotations OwnerUIDAnnotationKey = some cmp.UID)) ∧
      (∃ cm', storeGet (orphanConfigMap cmp st ns name).1 ns name = some cm' ∧
        cm'.Data = cm.Data ∧
        (∀ v, mlookup cm.Labels OwnerLabelKey = some v → v ≠ ownerLabelValue cmp →
          mlookup cm'.Labels OwnerLabelKey = some v) ∧
        (∀ v, mlookup cm.Annotations OwnerUIDAnnotationKey = some v → v ≠ cmp.UID →
          mlookup cm'.Annotations OwnerUIDAnnotationKey = some v)) ∧
      (∀ ns' name', ¬(ns' = ns ∧ name' = name) →
        storeGet (orphanConfigMap cmp st ns name).1 ns' name' = storeGet st ns' name')) := by
  constructor
  · intro h
    rw [orphanConfigMap, h]
  · intro cm h
    obtain ⟨hns, hname⟩ := storeGet_some_key h
    by_cases hl : mlookup cm.Labels OwnerLabelKey = some (ownerLabelValue cmp) <;>
      by_cases ha : mlookup cm.Annotations OwnerUIDAnnotationKey = some cmp.UID
    · have hres : orphanConfigMap cmp st ns name =
          (storeUpsert st { cm with
            Labels := mremove cm.Labels OwnerLabelKey,
            Annotations := mremove cm.Annotations OwnerUIDAnnotationKey }, true, none) := by
        rw [orphanConfigMap, h]
        simp [hl, ha]
      rw [hres]
      refine ⟨rfl, by simp [hl, ha], ?_, ?_⟩
      · refine ⟨{ cm with
            Labels := mremove cm.Labels OwnerLabelKey,
            Annotations := mremove cm.Annotations OwnerUIDAnnotationKey }, ?_, rfl, ?_, ?_⟩
        · rw [storeGet_storeUpsert]
          exact if_pos ⟨hns, hname⟩
        · intro v hv hvne
          rw [hl] at hv
          injection hv with hv2
          exact absurd hv2.symm hvne
        · intro v hv hvne
          rw [ha] at hv
          injection hv with hv2
          exact absurd hv2.symm hvne
      · intro ns' name' hnot
        rw [storeGet_storeUpsert]
        exact if_neg (fun hh => hnot ⟨(hns.symm.trans hh.1).symm, (hname.symm.trans hh.2).symm⟩)
    · have hres : orphanConfigMap cmp st ns name =
          (storeUpsert st { cm with
            Labels := mremove cm.Labels OwnerLabelKey }, true, none) := by
        rw [orphanConfigMap, h]
        simp [hl, ha]
      rw [hres]
      refine ⟨rfl, by simp [hl, ha], ?_, ?_⟩
      · refine ⟨{ cm with Labels := mremove cm.Labels OwnerLabelKey }, ?_, rfl, ?_, ?_⟩
        · rw [storeGet_storeUpsert]
          exact if_pos ⟨hns, hname⟩
        · intro v hv hvne
          rw [hl] at hv
          injection hv with hv2
          exact absurd hv2.symm hvne
        · intro v hv _
          exact hv
      · intro ns' name' hnot
        rw [storeGet_storeUpsert]
        exact if_neg (fun hh => hnot ⟨(hns.symm.trans hh.1).symm, (hname.symm.trans hh.2).symm⟩)
    · have hres : orphanConfigMap cmp st ns name =
          (storeUpsert st { cm with
            Annotations := mremove cm.Annotations OwnerUIDAnnotationKey }, true, none) := by
        rw [orphanConfigMap, h]
        simp [hl, ha]
      rw [hres]
      refine ⟨rfl, by simp [hl, ha], ?_, ?_⟩
      · refine ⟨{ cm with
            Annotations := mremove cm.Annotations OwnerUIDAnnotationKey }, ?_, rfl, ?_, ?_⟩
        · rw [storeGet_storeUpsert]
          exact if_pos ⟨hns, hname⟩
        · intro v hv _
          exact hv
        · intro v hv hvne
          rw [ha] at hv
          injection hv with hv2
          exact absurd hv2.symm hvne
      · intro ns' name' hnot
        rw [storeGet_storeUpsert]
        exact if_neg (fun hh => hnot ⟨(hns.symm.trans hh.1).symm, (hname.symm.trans hh.2).symm⟩)
    · have hres : orphanConfigMap cmp st ns name = (st, false, none) := by
        rw [orphanConfigMap, h]
        simp [hl, ha]
      rw [hres]
      refine ⟨rfl, by simp [hl, ha], ?_, ?_⟩
      · exact ⟨cm, h, rfl, fun v hv _ => hv, fun v hv _ => hv⟩
      · intro ns' name' _
        rfl

/-- C9 witness: the theorem applied to a store holding one target owned
by the concrete source. -/
theorem c9_orphan_safety_witness :
    (orphanConfigMap cexDeleteCmp [cexOwnedCM] "ns1" "cm1").2.2 = none ∧
    ((orphanConfigMap cexDeleteCmp [cexOwnedCM] "ns1" "cm1").2.1 = true ↔
      (mlookup cexOwnedCM.Labels OwnerLabelKey = some (ownerLabelValue cexDeleteCmp) ∨
        mlookup cexOwnedCM.Annotations OwnerUIDAnnotationKey = some cexDeleteCmp.UID)) ∧
    (∃ cm', storeGet (orphanConfigMap cexDeleteCmp [cexOwnedCM] "ns1" "cm1").1 "ns1" "cm1" =
        some cm' ∧
      cm'.Data = cexOwnedCM.Data ∧
      (∀ v, mlookup cexOwnedCM.Labels OwnerLabelKey = some v →
        v ≠ ownerLabelValue cexDeleteCmp → mlookup cm'.Labels OwnerLabelKey = some v) ∧
      (∀ v, mlookup cexOwnedCM.Annotations OwnerUIDAnnotationKey = some v →
        v ≠ cexDeleteCmp.UID → mlookup cm'.Annotations OwnerUIDAnnotationKey = some v)) ∧
    (∀ ns' name', ¬(ns' = "ns1" ∧ name' = "cm1") →
      storeGet (orphanConfigMap cexDeleteCmp [cexOwnedCM] "ns1" "cm1").1 ns' name' =
        storeGet [cexOwnedCM] ns' name') :=
  (c9_orphan_safety cexDeleteCmp [cexOwnedCM] "ns1" "cm1").2 cexOwnedCM (by decide)

theorem desiredData_overwrite (td sd : Smap) : desiredData "Overwrite" td sd = sd := rfl

theorem desiredData_default (policy : String) (hpol : policy ≠ "Overwrite") (td sd : Smap) :
    desiredData policy td sd = minsertAll (minsertAll [] td) sd := by
  rw [desiredData]
  exact hpol

theorem mlookup_desiredData_default (policy : String) (hpol : policy ≠ "Overwrite")
    (td sd : Smap) (htd : (mkeys td).Nodup) (hsd : (mkeys sd).Nodup) (k : String) :
    mlookup (desiredData policy td sd) k =
      match mlookup sd k with
      | some v => some v
      | none => mlookup td k := by
  rw [desiredData_default policy hpol, mlookup_minsertAll sd hsd]
  cases hs : mlookup sd k with
  | some v => rfl
  | none =>
    rw [mlookup_minsertAll td htd]
    cases ht : mlookup td k with
    | some v => rfl
    | none => rfl

theorem nodup_mkeys_desiredData (policy : String) (td sd : Smap)
    (hsd : (mkeys sd).Nodup) : (mkeys (desiredData policy td sd)).Nodup := by
  by_cases hpol : policy = "Overwrite"
  · rw [hpol, desiredData_overwrite]
    exact hsd
  · rw [desiredData_default policy hpol]
    exact nodup_mkeys_minsertAll sd (minsertAll [] td)
      (nodup_mkeys_minsertAll td [] (by simp [mkeys]))

/-- C4: for every target payload T and source payload S, updateIfNeeded
computes the desired payload as: under Merge policy, T with every key
of S applied on top (keys unique to T survive, keys in both take S's
value); under Overwrite policy, exactly S regardless of T; and it skips
the write exactly when the desired payload equals the target's current
payload (otherwise it writes the desired payload onto the target). -/
theorem c4_updateIfNeeded_policy (cmp : ConfigMapPropagation) (st : Store)
    (t : PropagatorTarget) (target src : ConfigMap)
    (htgt : storeGet st t.Namespace t.ConfigmapName = some target)
    (hsrc : storeGet st (effectiveSourceNS cmp) cmp.Spec.SourceName = some src)
    (htd : (mkeys target.Data).Nodup) (hsd : (mkeys src.Data).Nodup) :
    (cmp.Spec.PropagationPolicy = "Merge" →
      ∀ k, mlookup (desiredData cmp.Spec.PropagationPolicy target.Data src.Data) k =
        match mlookup src.Data k with
        | some v => some v
        | none => mlookup target.Data k) ∧
    (cmp.Spec.PropagationPolicy = "Overwrite" →
      desiredData cmp.Spec.PropagationPolicy target.Data src.Data = src.Data) ∧
    ((updateIfNeeded cmp st t).2.1 = false ↔
      ∀ k, mlookup target.Data k =
        mlookup (desiredData cmp.Spec.PropagationPolicy target.Data src.Data) k) ∧
    ((updateIfNeeded cmp st t).2.1 = true →
      (updateIfNeeded cmp st t).1 = storeUpsert st
        { target with
          Data := desiredData cmp.Spec.PropagationPolicy target.Data src.Data }) := by
  have hdd : (mkeys (desiredData cmp.Spec.PropagationPolicy target.Data src.Data)).Nodup :=
    nodup_mkeys_desiredData _ _ _ hsd
  have hstep : updateIfNeeded cmp st t =
      if mequiv target.Data (desiredData cmp.Spec.PropagationPolicy target.Data src.Data)
      then (st, false, none)
      else (storeUpsert st
        { target with
          Data := desiredData cmp.Spec.PropagationPolicy target.Data src.Data },
        true, none) := by
    rw [updateIfNeeded, htgt, hsrc]
  refine ⟨?_, ?_, ?_, ?_⟩
  · intro hpol k
    exact mlookup_desiredData_default _ (by rw [hpol]; decide) target.Data src.Data htd hsd k
  · intro hpol
    rw [hpol]
    exact desiredData_overwrite target.Data src.Data
  · by_cases hm : mequiv target.Data
        (desiredData cmp.Spec.PropagationPolicy target.Data src.Data) = true
    · constructor
      · intro _
        exact (mequiv_iff htd hdd).1 hm
      · intro _
        rw [hstep, if_pos hm]
    · constructor
      · intro hfalse
        rw [hstep, if_neg hm] at hfalse
        cases hfalse
      · intro hall
        exact absurd ((mequiv_iff htd hdd).2 hall) hm
  · intro hw
    by_cases hm : mequiv target.Data
        (desiredData cmp.Spec.PropagationPolicy target.Data src.Data) = true
    · rw [hstep, if_pos hm] at hw
      cases hw
    · rw [hstep, if_neg hm]

/-- C4 witness: the spec's merge example (source {k1:v1,k2:v2}, target
{k2:old,k3:v3}) under the concrete Merge-policy source record. -/
theorem c4_updateIfNeeded_policy_witness :
    (cexPeriodicCmp.Spec.PropagationPolicy = "Merge" →
      ∀ k, mlookup (desiredData cexPeriodicCmp.Spec.PropagationPolicy cexTargetCM.Data
          cexSrcCM.Data) k =
        match mlookup cexSrcCM.Data k with
        | some v => some v
        | none => mlookup cexTargetCM.Data k) ∧
    (cexPeriodicCmp.Spec.PropagationPolicy = "Overwrite" →
      desiredData cexPeriodicCmp.Spec.PropagationPolicy cexTargetCM.Data cexSrcCM.Data =
        cexSrcCM.Data) ∧
    ((updateIfNeeded cexPeriodicCmp [cexTargetCM, cexSrcCM] cexFailTarget).2.1 = false ↔
      ∀ k, mlookup cexTargetCM.Data k =
        mlookup (desiredData cexPeriodicCmp.Spec.PropagationPolicy cexTargetCM.Data
          cexSrcCM.Data) k) ∧
    ((updateIfNeeded cexPeriodicCmp [cexTargetCM, cexSrcCM] cexFailTarget).2.1 = true →
      (updateIfNeeded cexPeriodicCmp [cexTargetCM, cexSrcCM] cexFailTarget).1 =
        storeUpsert [cexTargetCM, cexSrcCM]
          { cexTargetCM with
            Data := desiredData cexPeriodicCmp.Spec.PropagationPolicy cexTargetCM.Data
              cexSrcCM.Data }) :=
  c4_updateIfNeeded_policy cexPeriodicCmp [cexTargetCM, cexSrcCM] cexFailTarget
    cexTargetCM cexSrcCM (by decide) (by decide) (by decide) (by decide)

/-! Auxiliary store and diff lemmas for the idempotence proof. -/

theorem storeGet_eq_none_iff {st : Store} {ns name : String} :
    storeGet st ns name = none ↔
      ∀ cm ∈ st, ¬(cm.Namespace = ns ∧ cm.Name = name) := by
  induction st with
  | nil => simp [storeGet]
  | cons c rest ih =>
    simp only [storeGet, List.mem_cons]
    by_cases hc : c.Namespace = ns ∧ c.Name = name
    · rw [if_pos hc]
      constructor
      · intro h
        cases h
      · intro h
        exact absurd hc (h c (Or.inl rfl))
    · rw [if_neg hc, ih]
      constructor
      · intro h cm hm
        rcases hm with hm | hm
        · rw [hm]
          exact hc
        · exact h cm hm
      · intro h cm hm
        exact h cm (Or.inr hm)

theorem mem_of_storeGet_some {st : Store} {ns name : String} {cm : ConfigMap}
    (h : storeGet st ns name = some cm) : cm ∈ st := by
  induction st with
  | nil => cases h
  | cons c rest ih =>
    simp only [storeGet] at h
    by_cases hc : c.Namespace = ns ∧ c.Name = name
    · rw [if_pos hc] at h
      cases h
      exact List.mem_cons_self _ _
    · rw [if_neg hc] at h
      exact List.mem_cons_of_mem c (ih h)

theorem storeGet_of_mem {st : Store} (hWF : (storePairs st).Nodup)
    {cm : ConfigMap} (h : cm ∈ st) :
    storeGet st cm.Namespace cm.Name = some cm := by
  induction st with
  | nil => cases h
  | cons c rest ih =>
    simp only [storePairs, List.map_cons, List.nodup_cons] at hWF
    rcases List.mem_cons.1 h with h1 | h1
    · subst h1
      simp [storeGet]
    · simp only [storeGet]
      by_cases hc : c.Namespace = cm.Namespace ∧ c.Name = cm.Name
      · exfalso
        apply hWF.1
        rw [show (c.Namespace, c.Name) = (cm.Namespace, cm.Name) by rw [hc.1, hc.2]]
        exact List.mem_map_of_mem _ h1
      · rw [if_neg hc]
        exact ih hWF.2 h1

theorem mem_storeUpsert {st : Store} {c cm : ConfigMap}
    (h : cm ∈ storeUpsert st c) : cm ∈ st ∨ cm = c := by
  induction st with
  | nil =>
    simp only [storeUpsert, List.mem_singleton] at h
    exact Or.inr h
  | cons d rest ih =>
    simp only [storeUpsert] at h
    by_cases hc : d.Namespace = c.Namespace ∧ d.Name = c.Name
    · rw [if_pos hc] at h
      rcases List.mem_cons.1 h with h1 | h1
      · exact Or.inr h1
      · exact Or.inl (List.mem_cons_of_mem d h1)
    · rw [if_neg hc] at h
      rcases List.mem_cons.1 h with h1 | h1
      · exact Or.inl (h1 ▸ List.mem_cons_self d rest)
      · rcases ih h1 with h2 | h2
        · exact Or.inl (List.mem_cons_of_mem d h2)
        · exact Or.inr h2

theorem mem_storeDelete {st : Store} {ns name : String} {cm : ConfigMap}
    (h : cm ∈ storeDelete st ns name) :
    cm ∈ st ∧ ¬(cm.Namespace = ns ∧ cm.Name = name) := by
  induction st with
  | nil => cases h
  | cons c rest ih =>
    simp only [storeDelete] at h
    by_cases hc : c.Namespace = ns ∧ c.Name = name
    · rw [if_pos hc] at h
      obtain ⟨h1, h2⟩ := ih h
      exact ⟨List.mem_cons_of_mem c h1, h2⟩
    · rw [if_neg hc] at h
      rcases List.mem_cons.1 h with h1 | h1
      · subst h1
        exact ⟨List.mem_cons_self cm rest, hc⟩
      · obtain ⟨h2, h3⟩ := ih h1
        exact ⟨List.mem_cons_of_mem c h2, h3⟩

theorem storePairs_storeUpsert_of_some {st : Store} {c : ConfigMap} {cm0 : ConfigMap}
    (h : storeGet st c.Namespace c.Name = some cm0) :
    storePairs (storeUpsert st c) = storePairs st := by
  induction st with
  | nil => cases h
  | cons d rest ih =>
    simp only [storeGet] at h
    simp only [storeUpsert]
    by_cases hc : d.Namespace = c.Namespace ∧ d.Name = c.Name
    · rw [if_pos hc]
      simp only [storePairs, List.map_cons]
      rw [hc.1, hc.2]
    · rw [if_neg hc]
      rw [if_neg hc] at h
      simp only [storePairs, List.map_cons]
      rw [show (storeUpsert rest c).map (fun cm => (cm.Namespace, cm.Name)) =
        storePairs (storeUpsert rest c) from rfl, ih h]
      rfl

theorem storePairs_storeUpsert_of_none {st : Store} {c : ConfigMap}
    (h : storeGet st c.Namespace c.Name = none) :
    storePairs (storeUpsert st c) = storePairs st ++ [(c.Namespace, c.Name)] := by
  induction st with
  | nil => simp [storeUpsert, storePairs]
  | cons d rest ih =>
    simp only [storeGet] at h
    simp only [storeUpsert]
    by_cases hc : d.Namespace = c.Namespace ∧ d.Name = c.Name
    · rw [if_pos hc] at h
      cases h
    · rw [if_neg hc] at h
      rw [if_neg hc]
      simp only [storePairs, List.map_cons]
      rw [show (storeUpsert rest c).map (fun cm => (cm.Namespace, cm.Name)) =
        storePairs (storeUpsert rest c) from rfl, ih h]
      rfl

theorem nodup_keys_tmapInsert {m : List (String × PropagatorTarget)}
    (hm : (m.map Prod.fst).Nodup) (k : String) (t : PropagatorTarget) :
    ((tmapInsert m k t).map Prod.fst).Nodup := by
  induction m with
  | nil => simp [tmapInsert]
  | cons kv rest ih =>
    simp only [List.map_cons, List.nodup_cons] at hm
    simp only [tmapInsert]
    by_cases hk : kv.1 = k
    · rw [if_pos hk]
      simp only [List.map_cons, List.nodup_cons]
      exact ⟨by rw [← hk]; exact hm.1, hm.2⟩
    · rw [if_neg hk]
      simp only [List.map_cons, List.nodup_cons]
      refine ⟨?_, ih hm.2⟩
      intro hmem
      rcases mem_keys_tmapInsert.1 hmem with h | h
      · exact hm.1 h
      · exact hk h

theorem nodup_keys_buildTargetMap_aux (ts : List PropagatorTarget) :
    ∀ (acc : List (String × PropagatorTarget)), (acc.map Prod.fst).Nodup →
      ((ts.foldl (fun m t => tmapInsert m (targetKey t) t) acc).map Prod.fst).Nodup := by
  induction ts with
  | nil => intro acc h; exact h
  | cons t rest ih =>
    intro acc h
    exact ih _ (nodup_keys_tmapInsert h (targetKey t) t)

theorem nodup_keys_buildTargetMap (ts : List PropagatorTarget) :
    ((buildTargetMap ts).map Prod.fst).Nodup :=
  nodup_keys_buildTargetMap_aux ts [] (by simp)

theorem tmapInsert_length_of_not_mem {m : List (String × PropagatorTarget)}
    {k : String} (h : k ∉ m.map Prod.fst) (t : PropagatorTarget) :
    (tmapInsert m k t).length = m.length + 1 := by
  induction m with
  | nil => rfl
  | cons kv rest ih =>
    simp only [List.map_cons, List.mem_cons, not_or] at h
    simp only [tmapInsert]
    rw [if_neg (fun hh => h.1 hh.symm)]
    simp only [List.length_cons]
    rw [ih h.2]

theorem buildTargetMap_length_aux (ts : List PropagatorTarget) :
    ∀ (acc : List (String × PropagatorTarget)),
      (ts.map targetKey).Nodup →
      (∀ t ∈ ts, targetKey t ∉ acc.map Prod.fst) →
      (ts.foldl (fun m t => tmapInsert m (targetKey t) t) acc).length =
        acc.length + ts.length := by
  induction ts with
  | nil => intro acc _ _; simp
  | cons t rest ih =>
    intro acc hnd hdisj
    simp only [List.map_cons, List.nodup_cons] at hnd
    simp only [List.foldl_cons]
    rw [ih (tmapInsert acc (targetKey t) t) hnd.2 ?_]
    · rw [tmapInsert_length_of_not_mem (hdisj t (List.mem_cons_self t rest)) t]
      simp only [List.length_cons]
      omega
    · intro t' ht' hmem
      rcases mem_keys_tmapInsert.1 hmem with h | h
      · exact hdisj t' (List.mem_cons_of_mem t ht') h
      · exact hnd.1 (h ▸ List.mem_map_of_mem targetKey ht')

theorem buildTargetMap_length {ts : List PropagatorTarget}
    (h : (ts.map targetKey).Nodup) : (buildTargetMap ts).length = ts.length := by
  rw [buildTargetMap, buildTargetMap_length_aux ts [] h (by simp)]
  simp

theorem mem_getCurrentTargets {cmp : ConfigMapPropagation} {st : Store}
    {t : PropagatorTarget} :
    t ∈ getCurrentTargets cmp st ↔
      ∃ cm ∈ st, ownedBy cmp cm ∧ t = { ConfigmapName := cm.Name, Namespace := cm.Namespace } := by
  simp only [getCurrentTargets, List.mem_map, List.mem_filter, decide_eq_true_eq, ownedBy]
  constructor
  · rintro ⟨cm, ⟨hmem, hown⟩, rfl⟩
    exact ⟨cm, hmem, hown, rfl⟩
  · rintro ⟨cm, hmem, hown, rfl⟩
    exact ⟨cm, ⟨hmem, hown⟩, rfl⟩

theorem toCreate_eq_nil {d c : List PropagatorTarget}
    (h : ∀ k ∈ d.map targetKey, k ∈ c.map targetKey) : toCreate d c = [] := by
  rw [toCreate, List.map_eq_nil_iff, List.filter_eq_nil_iff]
  intro kv hkv
  obtain ⟨hk, hmem⟩ := mem_buildTargetMap hkv
  simp only [Bool.not_eq_true', Bool.not_eq_false]
  rw [tmapHasKey_iff, mem_keys_buildTargetMap, hk]
  exact h _ (List.mem_map_of_mem targetKey hmem)

theorem toDelete_eq_nil {d c : List PropagatorTarget}
    (h : ∀ k ∈ c.map targetKey, k ∈ d.map targetKey) : toDelete d c = [] := by
  rw [toDelete, List.map_eq_nil_iff, List.filter_eq_nil_iff]
  intro kv hkv
  obtain ⟨hk, hmem⟩ := mem_buildTargetMap hkv
  simp only [Bool.not_eq_true', Bool.not_eq_false]
  rw [tmapHasKey_iff, mem_keys_buildTargetMap, hk]
  exact h _ (List.mem_map_of_mem targetKey hmem)

theorem toUpdate_eq_values {d c : List PropagatorTarget}
    (h : ∀ k ∈ d.map targetKey, k ∈ c.map targetKey) :
    toUpdate d c = (buildTargetMap d).map Prod.snd := by
  have hf : (buildTargetMap d).filter (fun kv => tmapHasKey (buildTargetMap c) kv.1) =
      buildTargetMap d := by
    rw [List.filter_eq_self]
    intro kv hkv
    obtain ⟨hk, hmem⟩ := mem_buildTargetMap hkv
    rw [tmapHasKey_iff, mem_keys_buildTargetMap, hk]
    exact h _ (List.mem_map_of_mem targetKey hmem)
  rw [toUpdate, hf]

theorem toCreate_eq_values {d c : List PropagatorTarget}
    (h : ∀ k ∈ d.map targetKey, k ∉ c.map targetKey) :
    toCreate d c = (buildTargetMap d).map Prod.snd := by
  have hf : (buildTargetMap d).filter (fun kv => !(tmapHasKey (buildTargetMap c) kv.1)) =
      buildTargetMap d := by
    rw [List.filter_eq_self]
    intro kv hkv
    obtain ⟨hk, hmem⟩ := mem_buildTargetMap hkv
    rw [Bool.not_eq_true', tmapHasKey_eq_false_iff, mem_keys_buildTargetMap, hk]
    exact h _ (List.mem_map_of_mem targetKey hmem)
  rw [toCreate, hf]

theorem toUpdate_eq_nil {d c : List PropagatorTarget}
    (h : ∀ k ∈ d.map targetKey, k ∉ c.map targetKey) : toUpdate d c = [] := by
  rw [toUpdate, List.map_eq_nil_iff, List.filter_eq_nil_iff]
  intro kv hkv
  obtain ⟨hk, hmem⟩ := mem_buildTargetMap hkv
  intro habs
  rw [tmapHasKey_iff, mem_keys_buildTargetMap, hk] at habs
  exact h _ (List.mem_map_of_mem targetKey hmem) habs

theorem toDelete_eq_values {d c : List PropagatorTarget}
    (h : ∀ k ∈ c.map targetKey, k ∉ d.map targetKey) :
    toDelete d c = (buildTargetMap c).map Prod.snd := by
  have hf : (buildTargetMap c).filter (fun kv => !(tmapHasKey (buildTargetMap d) kv.1)) =
      buildTargetMap c := by
    rw [List.filter_eq_self]
    intro kv hkv
    obtain ⟨hk, hmem⟩ := mem_buildTargetMap hkv
    rw [Bool.not_eq_true', tmapHasKey_eq_false_iff, mem_keys_buildTargetMap, hk]
    exact h _ (List.mem_map_of_mem targetKey hmem)
  rw [toDelete, hf]

/-! Step-level lemmas about the three loops of the sync pass. -/

theorem ensure_fresh {cmp : ConfigMapPropagation} {st : Store} {t : PropagatorTarget}
    {src : ConfigMap}
    (hvac : storeGet st t.Namespace t.ConfigmapName = none)
    (hsrc : storeGet st (effectiveSourceNS cmp) cmp.Spec.SourceName = some src) :
    ensureConfigMap cmp st t = (storeUpsert st (createdCM cmp src t), true, none) := by
  rw [ensureConfigMap, hvac, hsrc]

theorem createStep_fresh {cmp : ConfigMapPropagation} {ps : PassState}
    {t : PropagatorTarget} {src : ConfigMap}
    (hvac : storeGet ps.store t.Namespace t.ConfigmapName = none)
    (hsrc : storeGet ps.store (effectiveSourceNS cmp) cmp.Spec.SourceName = some src) :
    createStep cmp ps t = { ps with
      store := storeUpsert ps.store (createdCM cmp src t),
      summary := { ps.summary with
        Created := ps.summary.Created + 1, Total := ps.summary.Total + 1 },
      writes := ps.writes + 1 } := by
  rw [createStep, ensure_fresh hvac hsrc]
  rfl

theorem mequiv_desiredData_self (policy : String) {sd : Smap}
    (hsd : (mkeys sd).Nodup) : mequiv sd (desiredData policy sd sd) = true := by
  by_cases hpol : policy = "Overwrite"
  · rw [hpol, desiredData_overwrite]
    exact (mequiv_iff hsd hsd).2 (fun k => rfl)
  · apply (mequiv_iff hsd (nodup_mkeys_desiredData policy sd sd hsd)).2
    intro k
    rw [mlookup_desiredData_default policy hpol sd sd hsd hsd k]
    cases h : mlookup sd k with
    | some v => rfl
    | none => rfl

theorem updateIfNeeded_noop {cmp : ConfigMapPropagation} {st : Store}
    {t : PropagatorTarget} {tgt src : ConfigMap}
    (htgt : storeGet st t.Namespace t.ConfigmapName = some tgt)
    (hsrc : storeGet st (effectiveSourceNS cmp) cmp.Spec.SourceName = some src)
    (heq : mequiv tgt.Data (desiredData cmp.Spec.PropagationPolicy tgt.Data src.Data) = true) :
    updateIfNeeded cmp st t = (st, false, none) := by
  simp only [updateIfNeeded, htgt, hsrc]
  rw [if_pos heq]

theorem updateStep_noop {cmp : ConfigMapPropagation} {ps : PassState} {t : PropagatorTarget}
    (h : updateIfNeeded cmp ps.store t = (ps.store, false, none)) :
    updateStep cmp ps t =
      { ps with summary := { ps.summary with
          Updated := ps.summary.Updated + 1, Total := ps.summary.Total + 1 } } := by
  rw [updateStep, h]
  rfl

theorem runUpdateLoop_noop {cmp : ConfigMapPropagation} {st : Store} :
    ∀ (l : List PropagatorTarget) (ps : PassState), ps.store = st →
      (∀ t ∈ l, updateIfNeeded cmp st t = (st, false, none)) →
      runUpdateLoop cmp ps l =
        { ps with summary := { ps.summary with
            Updated := ps.summary.Updated + l.length,
            Total := ps.summary.Total + l.length } } := by
  intro l
  induction l with
  | nil =>
    intro ps _ _
    simp [runUpdateLoop]
  | cons t rest ih =>
    intro ps hst hall
    have h1 : updateStep cmp ps t =
        { ps with summary := { ps.summary with
            Updated := ps.summary.Updated + 1, Total := ps.summary.Total + 1 } } := by
      apply updateStep_noop
      rw [hst]
      exact hall t (List.mem_cons_self t rest)
    rw [runUpdateLoop, List.foldl_cons,
      show rest.foldl (updateStep cmp) (updateStep cmp ps t) =
        runUpdateLoop cmp (updateStep cmp ps t) rest from rfl, h1,
      ih _ (by rw [← hst]) (fun t' ht' => hall t' (List.mem_cons_of_mem t ht'))]
    have e1 : ps.summary.Updated + 1 + rest.length =
        ps.summary.Updated + (t :: rest).length := by
      simp only [List.length_cons]
      omega
    have e2 : ps.summary.Total + 1 + rest.length =
        ps.summary.Total + (t :: rest).length := by
      simp only [List.length_cons]
      omega
    rw [e1, e2]

theorem orphanConfigMap_third (cmp : ConfigMapPropagation) (st : Store)
    (ns name : String) : (orphanConfigMap cmp st ns name).2.2 = none := by
  rw [orphanConfigMap]
  split
  · rfl
  · dsimp only
    split
    · rfl
    · rfl

theorem deleteConfigMap_third (st : Store) (ns name : String) :
    (deleteConfigMap st ns name).2.2 = none := by
  rw [deleteConfigMap]
  split
  · rfl
  · rfl

theorem deleteStep_orphan_eq {cmp : ConfigMapPropagation} {ps : PassState}
    {t : PropagatorTarget} (hpol : cmp.Spec.DeletionPolicy = "Orphan") :
    deleteStep cmp ps t = { ps with
      store := (orphanConfigMap cmp ps.store t.Namespace t.ConfigmapName).1,
      summary := { ps.summary with
        Orphaned := ps.summary.Orphaned + 1, Total := ps.summary.Total + 1 },
      writes := ps.writes +
        (if (orphanConfigMap cmp ps.store t.Namespace t.ConfigmapName).2.1 then 1 else 0) } := by
  have h3 := orphanConfigMap_third cmp ps.store t.Namespace t.ConfigmapName
  simp only [deleteStep, hpol]
  rcases horph : orphanConfigMap cmp ps.store t.Namespace t.ConfigmapName with ⟨st', w, e⟩
  rw [horph] at h3
  simp only at h3
  subst h3
  rfl

theorem deleteStep_delete_eq {cmp : ConfigMapPropagation} {ps : PassState}
    {t : PropagatorTarget} (hpol : cmp.Spec.DeletionPolicy = "Delete") :
    deleteStep cmp ps t = { ps with
      store := (deleteConfigMap ps.store t.Namespace t.ConfigmapName).1,
      summary := { ps.summary with
        Deleted := ps.summary.Deleted + 1, Total := ps.summary.Total + 1 },
      writes := ps.writes +
        (if (deleteConfigMap ps.store t.Namespace t.ConfigmapName).2.1 then 1 else 0) } := by
  have h3 := deleteConfigMap_third ps.store t.Namespace t.ConfigmapName
  simp only [deleteStep, hpol]
  rcases hdel : deleteConfigMap ps.store t.Namespace t.ConfigmapName with ⟨st', w, e⟩
  rw [hdel] at h3
  simp only at h3
  subst h3
  rfl

theorem pair_ne_of_targetKey_ne {t t' : PropagatorTarget}
    (h : targetKey t ≠ targetKey t') :
    ¬(t.Namespace = t'.Namespace ∧ t.ConfigmapName = t'.ConfigmapName) := by
  rintro ⟨h1, h2⟩
  exact h (by rw [targetKey, targetKey, h1, h2])

theorem createdCM_Namespace (cmp : ConfigMapPropagation) (src : ConfigMap)
    (t : PropagatorTarget) : (createdCM cmp src t).Namespace = t.Namespace := rfl

theorem createdCM_Name (cmp : ConfigMapPropagation) (src : ConfigMap)
    (t : PropagatorTarget) : (createdCM cmp src t).Name = t.ConfigmapName := rfl

theorem cmKey_createdCM (cmp : ConfigMapPropagation) (src : ConfigMap)
    (t : PropagatorTarget) : cmKey (createdCM cmp src t) = targetKey t := rfl

theorem createdCM_owned (cmp : ConfigMapPropagation) (src : ConfigMap)
    (t : PropagatorTarget) : ownedBy cmp (createdCM cmp src t) := by
  simp [ownedBy, createdCM, mlookup]

theorem orphanStep_effect (cmp : ConfigMapPropagation) (st : Store) (ns name : String) :
    (∀ ns' name', ¬(ns = ns' ∧ name = name') →
      storeGet (orphanConfigMap cmp st ns name).1 ns' name' = storeGet st ns' name') ∧
    (∀ cm', storeGet (orphanConfigMap cmp st ns name).1 ns name = some cm' →
      ¬ownedBy cmp cm') ∧
    (∀ cm ∈ (orphanConfigMap cmp st ns name).1, cm ∈ st ∨ ¬ownedBy cmp cm) ∧
    storePairs (orphanConfigMap cmp st ns name).1 = storePairs st := by
  cases hget : storeGet st ns name with
  | none =>
    have hres : orphanConfigMap cmp st ns name = (st, false, none) := by
      rw [orphanConfigMap, hget]
    rw [hres]
    refine ⟨fun _ _ _ => rfl, ?_, fun cm hm => Or.inl hm, rfl⟩
    intro cm' h
    rw [hget] at h
    cases h
  | some cm0 =>
    obtain ⟨hns, hname⟩ := storeGet_some_key hget
    have hget0 : storeGet st cm0.Namespace cm0.Name = some cm0 := by
      rw [hns, hname]
      exact hget
    by_cases hl : mlookup cm0.Labels OwnerLabelKey = some (ownerLabelValue cmp) <;>
      by_cases ha : mlookup cm0.Annotations OwnerUIDAnnotationKey = some cmp.UID
    · have hres : orphanConfigMap cmp st ns name =
          (storeUpsert st { cm0 with
            Labels := mremove cm0.Labels OwnerLabelKey,
            Annotations := mremove cm0.Annotations OwnerUIDAnnotationKey }, true, none) := by
        rw [orphanConfigMap, hget]
        simp [hl, ha]
      rw [hres]
      refine ⟨?_, ?_, ?_, ?_⟩
      · intro ns' name' hne
        rw [storeGet_storeUpsert]
        refine if_neg ?_
        rintro ⟨h1, h2⟩
        exact hne ⟨hns.symm.trans h1, hname.symm.trans h2⟩
      · intro cm' hg
        rw [storeGet_storeUpsert, if_pos ⟨hns, hname⟩] at hg
        injection hg with hg2
        rw [← hg2, ownedBy]
        simp [mlookup_mremove]
      · intro cm hm
        rcases mem_storeUpsert hm with h2 | h2
        · exact Or.inl h2
        · refine Or.inr ?_
          rw [h2, ownedBy]
          simp [mlookup_mremove]
      · exact storePairs_storeUpsert_of_some hget0
    · have hres : orphanConfigMap cmp st ns name =
          (storeUpsert st { cm0 with
            Labels := mremove cm0.Labels OwnerLabelKey }, true, none) := by
        rw [orphanConfigMap, hget]
        simp [hl, ha]
      rw [hres]
      refine ⟨?_, ?_, ?_, ?_⟩
      · intro ns' name' hne
        rw [storeGet_storeUpsert]
        refine if_neg ?_
        rintro ⟨h1, h2⟩
        exact hne ⟨hns.symm.trans h1, hname.symm.trans h2⟩
      · intro cm' hg
        rw [storeGet_storeUpsert, if_pos ⟨hns, hname⟩] at hg
        injection hg with hg2
        rw [← hg2, ownedBy]
        simp [mlookup_mremove]
      · intro cm hm
        rcases mem_storeUpsert hm with h2 | h2
        · exact Or.inl h2
        · refine Or.inr ?_
          rw [h2, ownedBy]
          simp [mlookup_mremove]
      · exact storePairs_storeUpsert_of_some hget0
    · have hres : orphanConfigMap cmp st ns name =
          (storeUpsert st { cm0 with
            Annotations := mremove cm0.Annotations OwnerUIDAnnotationKey }, true, none) := by
        rw [orphanConfigMap, hget]
        simp [hl, ha]
      rw [hres]
      refine ⟨?_, ?_, ?_, ?_⟩
      · intro ns' name' hne
        rw [storeGet_storeUpsert]
        refine if_neg ?_
        rintro ⟨h1, h2⟩
        exact hne ⟨hns.symm.trans h1, hname.symm.trans h2⟩
      · intro cm' hg
        rw [storeGet_storeUpsert, if_pos ⟨hns, hname⟩] at hg
        injection hg with hg2
        rw [← hg2]
        exact hl
      · intro cm hm
        rcases mem_storeUpsert hm with h2 | h2
        · exact Or.inl h2
        · refine Or.inr ?_
          rw [h2]
          exact hl
      · exact storePairs_storeUpsert_of_some hget0
    · have hres : orphanConfigMap cmp st ns name = (st, false, none) := by
        rw [orphanConfigMap, hget]
        simp [hl, ha]
      rw [hres]
      refine ⟨fun _ _ _ => rfl, ?_, fun cm hm => Or.inl hm, rfl⟩
      intro cm' hg
      rw [hget] at hg
      injection hg with hg2
      rw [← hg2]
      exact hl

theorem deleteStep_effect (st : Store) (ns name : String) :
    (∀ ns' name', ¬(ns = ns' ∧ name = name') →
      storeGet (deleteConfigMap st ns name).1 ns' name' = storeGet st ns' name') ∧
    (∀ cm ∈ (deleteConfigMap st ns name).1,
      cm ∈ st ∧ ¬(cm.Namespace = ns ∧ cm.Name = name)) := by
  cases hget : storeGet st ns name with
  | none =>
    have hres : deleteConfigMap st ns name = (st, false, none) := by
      rw [deleteConfigMap, hget]
    rw [hres]
    refine ⟨fun _ _ _ => rfl, ?_⟩
    intro cm hm
    refine ⟨hm, ?_⟩
    rw [storeGet_eq_none_iff] at hget
    exact hget cm hm
  | some cm0 =>
    have hres : deleteConfigMap st ns name = (storeDelete st ns name, true, none) := by
      rw [deleteConfigMap, hget]
    rw [hres]
    refine ⟨?_, ?_⟩
    · intro ns' name' hne
      rw [storeGet_storeDelete]
      exact if_neg hne
    · intro cm hm
      exact mem_storeDelete hm

theorem runDeleteLoop_delete {cmp : ConfigMapPropagation}
    (hpol : cmp.Spec.DeletionPolicy = "Delete") :
    ∀ (l : List PropagatorTarget) (ps : PassState),
      (∀ ns name, (∀ t ∈ l, ¬(t.Namespace = ns ∧ t.ConfigmapName = name)) →
        storeGet (runDeleteLoop cmp ps l).store ns name = storeGet ps.store ns name) ∧
      (∀ cm ∈ (runDeleteLoop cmp ps l).store,
        cm ∈ ps.store ∧ ∀ t ∈ l, ¬(cm.Namespace = t.Namespace ∧ cm.Name = t.ConfigmapName)) := by
  intro l
  induction l with
  | nil =>
    intro ps
    exact ⟨fun _ _ _ => rfl,
      fun cm hm => ⟨hm, fun t ht => absurd ht (List.not_mem_nil t)⟩⟩
  | cons t rest ih =>
    intro ps
    have hstep := deleteStep_effect ps.store t.Namespace t.ConfigmapName
    have hps' : (deleteStep cmp ps t).store =
        (deleteConfigMap ps.store t.Namespace t.ConfigmapName).1 := by
      rw [deleteStep_delete_eq hpol]
    have hrest := ih (deleteStep cmp ps t)
    have hloop : runDeleteLoop cmp ps (t :: rest) =
        runDeleteLoop cmp (deleteStep cmp ps t) rest := by
      rw [runDeleteLoop, List.foldl_cons]
      rfl
    rw [hloop]
    refine ⟨?_, ?_⟩
    · intro ns name havoid
      rw [hrest.1 ns name (fun t' ht' => havoid t' (List.mem_cons_of_mem t ht')), hps',
        hstep.1 ns name (havoid t (List.mem_cons_self t rest))]
    · intro cm hm
      obtain ⟨h1, h2⟩ := hrest.2 cm hm
      rw [hps'] at h1
      obtain ⟨h3, h4⟩ := hstep.2 cm h1
      refine ⟨h3, ?_⟩
      intro t' ht'
      rcases List.mem_cons.1 ht' with h5 | h5
      · rw [h5]
        exact h4
      · exact h2 t' h5

theorem runDeleteLoop_orphan {cmp : ConfigMapPropagation}
    (hpol : cmp.Spec.DeletionPolicy = "Orphan") :
    ∀ (l : List PropagatorTarget) (ps : PassState), (l.map targetKey).Nodup →
      (∀ ns name, (∀ t ∈ l, ¬(t.Namespace = ns ∧ t.ConfigmapName = name)) →
        storeGet (runDeleteLoop cmp ps l).store ns name = storeGet ps.store ns name) ∧
      (∀ t ∈ l, ∀ cm',
        storeGet (runDeleteLoop cmp ps l).store t.Namespace t.ConfigmapName = some cm' →
        ¬ownedBy cmp cm') ∧
      (∀ cm ∈ (runDeleteLoop cmp ps l).store, cm ∈ ps.store ∨ ¬ownedBy cmp cm) ∧
      storePairs (runDeleteLoop cmp ps l).store = storePairs ps.store := by
  intro l
  induction l with
  | nil =>
    intro ps _
    exact ⟨fun _ _ _ => rfl, fun t ht => absurd ht (List.not_mem_nil t),
      fun cm hm => Or.inl hm, rfl⟩
  | cons t rest ih =>
    intro ps hnd
    simp only [List.map_cons, List.nodup_cons] at hnd
    have hstep := orphanStep_effect cmp ps.store t.Namespace t.ConfigmapName
    have hps' : (deleteStep cmp ps t).store =
        (orphanConfigMap cmp ps.store t.Namespace t.ConfigmapName).1 := by
      rw [deleteStep_orphan_eq hpol]
    have hrest := ih (deleteStep cmp ps t) hnd.2
    have hloop : runDeleteLoop cmp ps (t :: rest) =
        runDeleteLoop cmp (deleteStep cmp ps t) rest := by
      rw [runDeleteLoop, List.foldl_cons]
      rfl
    have hpair_ne : ∀ t' ∈ rest,
        ¬(t'.Namespace = t.Namespace ∧ t'.ConfigmapName = t.ConfigmapName) := by
      intro t' ht'
      apply pair_ne_of_targetKey_ne
      intro hk
      exact hnd.1 (hk ▸ List.mem_map_of_mem targetKey ht')
    rw [hloop]
    refine ⟨?_, ?_, ?_, ?_⟩
    · intro ns name havoid
      rw [hrest.1 ns name (fun t' ht' => havoid t' (List.mem_cons_of_mem t ht')), hps',
        hstep.1 ns name (havoid t (List.mem_cons_self t rest))]
    · intro t'' ht'' cm' hg
      rcases List.mem_cons.1 ht'' with h1 | h1
      · subst h1
        rw [hrest.1 t''.Namespace t''.ConfigmapName hpair_ne, hps'] at hg
        exact hstep.2.1 cm' hg
      · exact hrest.2.1 t'' h1 cm' hg
    · intro cm hm
      rcases hrest.2.2.1 cm hm with h1 | h1
      · rw [hps'] at h1
        rcases hstep.2.2.1 cm h1 with h2 | h2
        · exact Or.inl h2
        · exact Or.inr h2
      · exact Or.inr h1
    · rw [hrest.2.2.2, hps', hstep.2.2.2]

theorem runCreateLoop_fresh {cmp : ConfigMapPropagation} {src : ConfigMap} :
    ∀ (l : List PropagatorTarget) (ps : PassState),
      (l.map targetKey).Nodup →
      (∀ t ∈ l, storeGet ps.store t.Namespace t.ConfigmapName = none) →
      storeGet ps.store (effectiveSourceNS cmp) cmp.Spec.SourceName = some src →
      (∀ t ∈ l, storeGet (runCreateLoop cmp ps l).store t.Namespace t.ConfigmapName =
        some (createdCM cmp src t)) ∧
      (∀ ns name, (∀ t ∈ l, ¬(t.Namespace = ns ∧ t.ConfigmapName = name)) →
        storeGet (runCreateLoop cmp ps l).store ns name = storeGet ps.store ns name) ∧
      (∀ cm ∈ (runCreateLoop cmp ps l).store,
        cm ∈ ps.store ∨ ∃ t ∈ l, cm = createdCM cmp src t) ∧
      storePairs (runCreateLoop cmp ps l).store =
        storePairs ps.store ++ l.map (fun t => (t.Namespace, t.ConfigmapName)) ∧
      (runCreateLoop cmp ps l).summary = { ps.summary with
        Created := ps.summary.Created + l.length,
        Total := ps.summary.Total + l.length } ∧
      (runCreateLoop cmp ps l).statuses = ps.statuses ∧
      (runCreateLoop cmp ps l).writes = ps.writes + l.length := by
  intro l
  induction l with
  | nil =>
    intro ps _ _ _
    refine ⟨fun t ht => absurd ht (List.not_mem_nil t), fun _ _ _ => rfl,
      fun cm hm => Or.inl hm, by simp [runCreateLoop], by simp [runCreateLoop], rfl, rfl⟩
  | cons t rest ih =>
    intro ps hnd hvac hsrc
    simp only [List.map_cons, List.nodup_cons] at hnd
    have hvt := hvac t (List.mem_cons_self t rest)
    have hstep := createStep_fresh hvt hsrc
    have hps'store : (createStep cmp ps t).store =
        storeUpsert ps.store (createdCM cmp src t) := by
      rw [hstep]
    have hpair_ne : ∀ t' ∈ rest,
        ¬(t.Namespace = t'.Namespace ∧ t.ConfigmapName = t'.ConfigmapName) := by
      intro t' ht'
      apply pair_ne_of_targetKey_ne
      intro hk
      exact hnd.1 (hk ▸ List.mem_map_of_mem targetKey ht')
    have hvac' : ∀ t' ∈ rest,
        storeGet (createStep cmp ps t).store t'.Namespace t'.ConfigmapName = none := by
      intro t' ht'
      rw [hps'store, storeGet_storeUpsert, createdCM_Namespace, createdCM_Name,
        if_neg (hpair_ne t' ht')]
      exact hvac t' (List.mem_cons_of_mem t ht')
    have hsrc' : storeGet (createStep cmp ps t).store
        (effectiveSourceNS cmp) cmp.Spec.SourceName = some src := by
      rw [hps'store, storeGet_storeUpsert, createdCM_Namespace, createdCM_Name, if_neg ?_]
      · exact hsrc
      · rintro ⟨h1, h2⟩
        rw [← h1, ← h2, hvt] at hsrc
        cases hsrc
    have hrest := ih (createStep cmp ps t) hnd.2 hvac' hsrc'
    have hloop : runCreateLoop cmp ps (t :: rest) =
        runCreateLoop cmp (createStep cmp ps t) rest := by
      rw [runCreateLoop, List.foldl_cons]
      rfl
    rw [hloop]
    refine ⟨?_, ?_, ?_, ?_, ?_, ?_, ?_⟩
    · intro t' ht'
      rcases List.mem_cons.1 ht' with h1 | h1
      · subst h1
        rw [hrest.2.1 t'.Namespace t'.ConfigmapName ?_, hps'store, storeGet_storeUpsert,
          createdCM_Namespace, createdCM_Name, if_pos ⟨rfl, rfl⟩]
        intro t'' ht''
        rintro ⟨h1, h2⟩
        exact hpair_ne t'' ht'' ⟨h1.symm, h2.symm⟩
      · exact hrest.1 t' h1
    · intro ns name havoid
      rw [hrest.2.1 ns name (fun t' ht' => havoid t' (List.mem_cons_of_mem t ht')),
        hps'store, storeGet_storeUpsert, createdCM_Namespace, createdCM_Name,
        if_neg (havoid t (List.mem_cons_self t rest))]
    · intro cm hm
      rcases hrest.2.2.1 cm hm with h1 | h1
      · rw [hps'store] at h1
        rcases mem_storeUpsert h1 with h2 | h2
        · exact Or.inl h2
        · exact Or.inr ⟨t, List.mem_cons_self t rest, h2⟩
      · obtain ⟨t', ht', he⟩ := h1
        exact Or.inr ⟨t', List.mem_cons_of_mem t ht', he⟩
    · have hv2 : storeGet ps.store (createdCM cmp src t).Namespace
          (createdCM cmp src t).Name = none := by
        rw [createdCM_Namespace, createdCM_Name]
        exact hvt
      rw [hrest.2.2.2.1, hps'store, storePairs_storeUpsert_of_none hv2,
        createdCM_Namespace, createdCM_Name, List.map_cons, List.append_assoc,
        List.singleton_append]
    · rw [hrest.2.2.2.2.1, hstep]
      have e1 : ps.summary.Created + 1 + rest.length =
          ps.summary.Created + (t :: rest).length := by
        simp only [List.length_cons]
        omega
      have e2 : ps.summary.Total + 1 + rest.length =
          ps.summary.Total + (t :: rest).length := by
        simp only [List.length_cons]
        omega
      dsimp only
      rw [e1, e2]
    · rw [hrest.2.2.2.2.2.1, hstep]
    · rw [hrest.2.2.2.2.2.2, hstep]
      have e3 : ps.writes + 1 + rest.length = ps.writes + (t :: rest).length := by
        simp only [List.length_cons]
        omega
      dsimp only
      rw [e3]

/-- The error component of `syncPass` is determined by the failed count
of its summary. -/
theorem syncPass_snd_eq (cmp : ConfigMapPropagation) (desired : List PropagatorTarget)
    (st : Store) :
    (syncPass cmp desired st).2 =
      if (syncPass cmp desired st).1.summary.Failed > 0
      then some (GoError.errorf "failed to sync the targets") else none := rfl

/-- C8 counterexample, refuting the claim on two independent inputs.
First: one desired target, initially vacant, source present; the first
pass creates the copy, and the second pass - with no external changes -
issues zero writes but reports Updated = 1, because the success arm of
the update loop counts a skipped no-op update as updated, so the
claim's "updated = 0" is false.  Second: with a pre-existing unowned
ConfigMap already at the desired location, the first pass adopts it
(markers only, payload untouched) and the second pass must then write
the payload: writes = 1 on the second run, so even the claim's "zero
writes on the second run" is false without a vacancy precondition. -/
theorem c8_counterexample :
    ((syncPass cexPeriodicCmp [cexFailTarget]
      (syncPass cexPeriodicCmp [cexFailTarget] [cexSrcCM]).1.store).1.summary.Updated = 1 ∧
    (syncPass cexPeriodicCmp [cexFailTarget]
      (syncPass cexPeriodicCmp [cexFailTarget] [cexSrcCM]).1.store).1.writes = 0 ∧
    (syncPass cexPeriodicCmp [cexFailTarget] [cexSrcCM]).2 = none) ∧
    ((syncPass cexPeriodicCmp [cexFailTarget]
      (syncPass cexPeriodicCmp [cexFailTarget] [cexSrcCM, cexPlainCM]).1.store).1.writes = 1 ∧
    (syncPass cexPeriodicCmp [cexFailTarget] [cexSrcCM, cexPlainCM]).2 = none) := by
  refine ⟨⟨by decide, by decide, by decide⟩, by decide, by decide⟩

/-- C8 amended: PROVIDED every desired target location is initially
vacant and no pre-existing owned copy claims a desired key (otherwise
the create loop merely adopts the existing ConfigMap - markers only,
payload untouched - and the second pass performs the deferred payload
write, as the counterexample's second half shows), with the source
ConfigMap present, not itself owner-labelled by this propagation, and
having duplicate-free payload keys, and with desired keys and the
store's namespace/name keys duplicate-free: running the sync pass twice
in a row with no external changes between runs performs zero target
writes on the second run, and the second run's summary has
created = deleted = orphaned = failed = 0 while total AND updated both
equal the desired-set size (the code counts successful no-op updates as
updated), the detail list is empty and no error is reported. -/
theorem c8_second_pass_idempotent (cmp : ConfigMapPropagation)
    (desired : List PropagatorTarget) (st : Store) (src : ConfigMap)
    (hnodup : (desired.map targetKey).Nodup)
    (hvacant : ∀ t ∈ desired, storeGet st t.Namespace t.ConfigmapName = none)
    (hcross : ∀ t ∈ desired, targetKey t ∉ (getCurrentTargets cmp st).map targetKey)
    (hsrc : storeGet st (effectiveSourceNS cmp) cmp.Spec.SourceName = some src)
    (hsrcfree : ¬ownedBy cmp src)
    (hsd : (mkeys src.Data).Nodup)
    (hkeys : (st.map cmKey).Nodup) :
    (syncPass cmp desired (syncPass cmp desired st).1.store).1.writes = 0 ∧
    (syncPass cmp desired (syncPass cmp desired st).1.store).1.store =
      (syncPass cmp desired st).1.store ∧
    (syncPass cmp desired (syncPass cmp desired st).1.store).1.statuses = [] ∧
    (syncPass cmp desired (syncPass cmp desired st).1.store).1.summary =
      { Total := desired.length, Created := 0, Updated := desired.length, Deleted := 0, Orphaned := 0, Failed := 0 } ∧
    (syncPass cmp desired (syncPass cmp desired st).1.store).2 = none := by
  have hd2c : ∀ k ∈ desired.map targetKey,
      k ∉ (getCurrentTargets cmp st).map targetKey := by
    intro k hk
    obtain ⟨t, ht, rfl⟩ := List.mem_map.1 hk
    exact hcross t ht
  have hc2d : ∀ k ∈ (getCurrentTargets cmp st).map targetKey,
      k ∉ desired.map targetKey := by
    intro k hk hk2
    obtain ⟨t, ht, he⟩ := List.mem_map.1 hk2
    rw [← he] at hk
    exact hcross t ht hk
  have hcreate1 : toCreate desired (getCurrentTargets cmp st) =
      (buildTargetMap desired).map Prod.snd := toCreate_eq_values hd2c
  have hupd1 : toUpdate desired (getCurrentTargets cmp st) = [] := toUpdate_eq_nil hd2c
  have hdel1 : toDelete desired (getCurrentTargets cmp st) =
      (buildTargetMap (getCurrentTargets cmp st)).map Prod.snd := toDelete_eq_values hc2d
  have hmem_dvals : ∀ t' ∈ (buildTargetMap desired).map Prod.snd,
      t' ∈ desired ∧ targetKey t' ∈ desired.map targetKey := by
    intro t' ht'
    obtain ⟨kv, hkv, he⟩ := List.mem_map.1 ht'
    obtain ⟨hk, hmem⟩ := mem_buildTargetMap hkv
    rw [← he]
    exact ⟨hmem, List.mem_map_of_mem targetKey hmem⟩
  have hdkeys_eq : ((buildTargetMap desired).map Prod.snd).map targetKey =
      (buildTargetMap desired).map Prod.fst := by
    rw [List.map_map]
    apply List.map_congr_left
    intro kv hkv
    exact ((mem_buildTargetMap hkv).1).symm
  have hdvals_nodup : (((buildTargetMap desired).map Prod.snd).map targetKey).Nodup := by
    rw [hdkeys_eq]
    exact nodup_keys_buildTargetMap desired
  have hvacD : ∀ t' ∈ (buildTargetMap desired).map Prod.snd,
      storeGet st t'.Namespace t'.ConfigmapName = none := fun t' ht' =>
    hvacant t' (hmem_dvals t' ht').1
  have hmem_cvals : ∀ t' ∈ (buildTargetMap (getCurrentTargets cmp st)).map Prod.snd,
      t' ∈ getCurrentTargets cmp st := by
    intro t' ht'
    obtain ⟨kv, hkv, he⟩ := List.mem_map.1 ht'
    rw [← he]
    exact (mem_buildTargetMap hkv).2
  have hckeys_eq : ((buildTargetMap (getCurrentTargets cmp st)).map Prod.snd).map targetKey =
      (buildTargetMap (getCurrentTargets cmp st)).map Prod.fst := by
    rw [List.map_map]
    apply List.map_congr_left
    intro kv hkv
    exact ((mem_buildTargetMap hkv).1).symm
  have hcvals_nodup :
      (((buildTargetMap (getCurrentTargets cmp st)).map Prod.snd).map targetKey).Nodup := by
    rw [hckeys_eq]
    exact nodup_keys_buildTargetMap (getCurrentTargets cmp st)
  have hpairs0 : (storePairs st).Nodup := by
    apply List.Nodup.of_map (f := fun p : String × String => p.1 ++ "/" ++ p.2)
    have he : (storePairs st).map (fun p : String × String => p.1 ++ "/" ++ p.2) =
        st.map cmKey := by
      rw [storePairs, List.map_map]
      rfl
    rw [he]
    exact hkeys
  obtain ⟨hS1A, hPresA, hMemA, hPairsA, hSumA, hStA, hWrA⟩ :=
    @runCreateLoop_fresh cmp src ((buildTargetMap desired).map Prod.snd)
      { store := st, summary := TargetsSummary.init, statuses := [], writes := 0 }
      hdvals_nodup hvacD hsrc
  have hps3 : (syncPass cmp desired st).1 =
      runDeleteLoop cmp (runCreateLoop cmp
        { store := st, summary := TargetsSummary.init, statuses := [], writes := 0 }
        ((buildTargetMap desired).map Prod.snd))
        ((buildTargetMap (getCurrentTargets cmp st)).map Prod.snd) := by
    show runDeleteLoop cmp (runUpdateLoop cmp (runCreateLoop cmp
        { store := st, summary := TargetsSummary.init, statuses := [], writes := 0 }
        (toCreate desired (getCurrentTargets cmp st)))
        (toUpdate desired (getCurrentTargets cmp st)))
        (toDelete desired (getCurrentTargets cmp st)) = _
    rw [hcreate1, hupd1, hdel1]
    rfl
  have htri : cmp.Spec.DeletionPolicy = "Delete" ∨ cmp.Spec.DeletionPolicy = "Orphan" ∨
      (cmp.Spec.DeletionPolicy ≠ "Delete" ∧ cmp.Spec.DeletionPolicy ≠ "Orphan") := by
    by_cases h1 : cmp.Spec.DeletionPolicy = "Delete"
    · exact Or.inl h1
    by_cases h2 : cmp.Spec.DeletionPolicy = "Orphan"
    · exact Or.inr (Or.inl h2)
    exact Or.inr (Or.inr ⟨h1, h2⟩)
  have hcval_avoid_desired : ∀ t' ∈ (buildTargetMap desired).map Prod.snd,
      ∀ t'' ∈ (buildTargetMap (getCurrentTargets cmp st)).map Prod.snd,
      ¬(t''.Namespace = t'.Namespace ∧ t''.ConfigmapName = t'.ConfigmapName) := by
    intro t' ht' t'' ht''
    apply pair_ne_of_targetKey_ne
    intro hk
    have h1 : targetKey t'' ∈ (getCurrentTargets cmp st).map targetKey :=
      List.mem_map_of_mem targetKey (hmem_cvals t'' ht'')
    have h2 : targetKey t' ∈ desired.map targetKey := (hmem_dvals t' ht').2
    rw [hk] at h1
    exact hd2c _ h2 h1
  have hS1 : ∀ t' ∈ (buildTargetMap desired).map Prod.snd,
      storeGet (syncPass cmp desired st).1.store t'.Namespace t'.ConfigmapName =
        some (createdCM cmp src t') := by
    intro t' ht'
    rw [hps3]
    rcases htri with hpol | hpol | hpol
    · rw [(runDeleteLoop_delete hpol _ _).1 _ _ (hcval_avoid_desired t' ht')]
      exact hS1A t' ht'
    · rw [(runDeleteLoop_orphan hpol _ _ hcvals_nodup).1 _ _ (hcval_avoid_desired t' ht')]
      exact hS1A t' ht'
    · rw [runDeleteLoop_other hpol.1 hpol.2]
      exact hS1A t' ht'
  have hsrc_avoid : ∀ t'' ∈ (buildTargetMap (getCurrentTargets cmp st)).map Prod.snd,
      ¬(t''.Namespace = effectiveSourceNS cmp ∧ t''.ConfigmapName = cmp.Spec.SourceName) := by
    intro t'' ht''
    rintro ⟨h1, h2⟩
    obtain ⟨cm2, hcm2, hown2, he2⟩ := mem_getCurrentTargets.1 (hmem_cvals t'' ht'')
    have hget2 : storeGet st cm2.Namespace cm2.Name = some cm2 := storeGet_of_mem hpairs0 hcm2
    rw [he2] at h1 h2
    simp only at h1 h2
    rw [h1, h2] at hget2
    rw [hget2] at hsrc
    injection hsrc with he3
    rw [he3] at hown2
    exact hsrcfree hown2
  have hsrcA : storeGet (runCreateLoop cmp
      { store := st, summary := TargetsSummary.init, statuses := [], writes := 0 }
      ((buildTargetMap desired).map Prod.snd)).store
      (effectiveSourceNS cmp) cmp.Spec.SourceName = some src := by
    rw [hPresA _ _ ?_]
    · exact hsrc
    · intro t' ht'
      rintro ⟨h1, h2⟩
      have := hvacD t' ht'
      rw [h1, h2, hsrc] at this
      cases this
  have hS3 : storeGet (syncPass cmp desired st).1.store
      (effectiveSourceNS cmp) cmp.Spec.SourceName = some src := by
    rw [hps3]
    rcases htri with hpol | hpol | hpol
    · rw [(runDeleteLoop_delete hpol _ _).1 _ _ hsrc_avoid]
      exact hsrcA
    · rw [(runDeleteLoop_orphan hpol _ _ hcvals_nodup).1 _ _ hsrc_avoid]
      exact hsrcA
    · rw [runDeleteLoop_other hpol.1 hpol.2]
      exact hsrcA
  have hstray : ∀ cm ∈ st, ownedBy cmp cm →
      targetKey { ConfigmapName := cm.Name, Namespace := cm.Namespace } ∉
        desired.map targetKey →
      ∃ t'' ∈ (buildTargetMap (getCurrentTargets cmp st)).map Prod.snd,
        t''.Namespace = cm.Namespace ∧ t''.ConfigmapName = cm.Name := by
    intro cm hmem hown hnot
    have htgt : ({ ConfigmapName := cm.Name, Namespace := cm.Namespace } :
        PropagatorTarget) ∈ getCurrentTargets cmp st :=
      mem_getCurrentTargets.2 ⟨cm, hmem, hown, rfl⟩
    have hkey : targetKey { ConfigmapName := cm.Name, Namespace := cm.Namespace } ∈
        (getCurrentTargets cmp st).map targetKey :=
      List.mem_map_of_mem targetKey htgt
    obtain ⟨kv, hkv, hfst⟩ := List.mem_map.1 (mem_keys_buildTargetMap.2 hkey)
    obtain ⟨hk1, hmemc⟩ := mem_buildTargetMap hkv
    obtain ⟨cm2, hcm2, hown2, he2⟩ := mem_getCurrentTargets.1 hmemc
    have hkeq : cmKey cm2 = cmKey cm := by
      have e1 : targetKey kv.2 = targetKey { ConfigmapName := cm.Name, Namespace := cm.Namespace } := by
        rw [← hk1, hfst]
      rw [he2] at e1
      exact e1
    have hcmeq : cm2 = cm := List.inj_on_of_nodup_map hkeys hcm2 hmem hkeq
    refine ⟨kv.2, List.mem_map_of_mem Prod.snd hkv, ?_, ?_⟩
    · rw [he2, hcmeq]
    · rw [he2, hcmeq]
  have hS2 : (cmp.Spec.DeletionPolicy = "Delete" ∨ cmp.Spec.DeletionPolicy = "Orphan") →
      ∀ cm ∈ (syncPass cmp desired st).1.store, ownedBy cmp cm →
        targetKey { ConfigmapName := cm.Name, Namespace := cm.Namespace } ∈
          desired.map targetKey := by
    intro hpols cm hcm hown
    by_contra hnot
    rw [hps3] at hcm
    rcases hpols with hpol | hpol
    · obtain ⟨hmA, havoid⟩ := (runDeleteLoop_delete hpol _ _).2 cm hcm
      rcases hMemA cm hmA with h1 | ⟨t', ht', he⟩
      · obtain ⟨t'', ht'', hp1, hp2⟩ := hstray cm h1 hown hnot
        exact havoid t'' ht'' ⟨hp1.symm, hp2.symm⟩
      · apply hnot
        rw [he]
        exact (hmem_dvals t' ht').2
    · have horph := runDeleteLoop_orphan hpol
        ((buildTargetMap (getCurrentTargets cmp st)).map Prod.snd)
        (runCreateLoop cmp
          { store := st, summary := TargetsSummary.init, statuses := [], writes := 0 }
          ((buildTargetMap desired).map Prod.snd)) hcvals_nodup
      have hmA : cm ∈ (runCreateLoop cmp
          { store := st, summary := TargetsSummary.init, statuses := [], writes := 0 }
          ((buildTargetMap desired).map Prod.snd)).store := by
        rcases horph.2.2.1 cm hcm with h1 | h1
        · exact h1
        · exact absurd hown h1
      rcases hMemA cm hmA with h1 | ⟨t', ht', he⟩
      · obtain ⟨t'', ht'', hp1, hp2⟩ := hstray cm h1 hown hnot
        have hpairs1 : (storePairs (runDeleteLoop cmp (runCreateLoop cmp
            { store := st, summary := TargetsSummary.init, statuses := [], writes := 0 }
            ((buildTargetMap desired).map Prod.snd))
            ((buildTargetMap (getCurrentTargets cmp st)).map Prod.snd)).store).Nodup := by
          rw [horph.2.2.2, hPairsA]
          apply List.Nodup.append hpairs0
          · apply List.Nodup.of_map (f := fun p : String × String => p.1 ++ "/" ++ p.2)
            have he2 : (((buildTargetMap desired).map Prod.snd).map
                (fun t => (t.Namespace, t.ConfigmapName))).map
                (fun p : String × String => p.1 ++ "/" ++ p.2) =
                ((buildTargetMap desired).map Prod.snd).map targetKey := by
              rw [List.map_map]
              rfl
            rw [he2]
            exact hdvals_nodup
          · intro p hp1m hp2m
            obtain ⟨cmx, hcmx, hex⟩ := List.mem_map.1 hp1m
            obtain ⟨tx, htx, hetx⟩ := List.mem_map.1 hp2m
            have hvx := hvacD tx htx
            rw [storeGet_eq_none_iff] at hvx
            apply hvx cmx hcmx
            rw [← hetx] at hex
            rw [Prod.mk.injEq] at hex
            exact ⟨hex.1, hex.2⟩
        have hget_cm : storeGet (runDeleteLoop cmp (runCreateLoop cmp
            { store := st, summary := TargetsSummary.init, statuses := [], writes := 0 }
            ((buildTargetMap desired).map Prod.snd))
            ((buildTargetMap (getCurrentTargets cmp st)).map Prod.snd)).store
            cm.Namespace cm.Name = some cm :=
          storeGet_of_mem hpairs1 hcm
        have hnown := horph.2.1 t'' ht'' cm ?_
        · exact hnown hown
        · rw [hp1, hp2]
          exact hget_cm
      · apply hnot
        rw [he]
        exact (hmem_dvals t' ht').2
  have hA1 : ∀ k ∈ desired.map targetKey,
      k ∈ (getCurrentTargets cmp (syncPass cmp desired st).1.store).map targetKey := by
    intro k hk
    obtain ⟨kv, hkv, hfst⟩ := List.mem_map.1 (mem_keys_buildTargetMap.2 hk)
    have hkv2 : kv.2 ∈ (buildTargetMap desired).map Prod.snd :=
      List.mem_map_of_mem Prod.snd hkv
    have hget := hS1 kv.2 hkv2
    have hmem1 : createdCM cmp src kv.2 ∈ (syncPass cmp desired st).1.store :=
      mem_of_storeGet_some hget
    have hcur2 : ({ ConfigmapName := (createdCM cmp src kv.2).Name, Namespace := (createdCM cmp src kv.2).Namespace } : PropagatorTarget) ∈
        getCurrentTargets cmp (syncPass cmp desired st).1.store :=
      mem_getCurrentTargets.2 ⟨_, hmem1, createdCM_owned cmp src kv.2, rfl⟩
    have hfinal := List.mem_map_of_mem targetKey hcur2
    rw [← hfst, (mem_buildTargetMap hkv).1]
    exact hfinal
  have hcr2 : toCreate desired (getCurrentTargets cmp (syncPass cmp desired st).1.store) =
      [] := toCreate_eq_nil hA1
  have hup2 : toUpdate desired (getCurrentTargets cmp (syncPass cmp desired st).1.store) =
      (buildTargetMap desired).map Prod.snd := toUpdate_eq_values hA1
  have hnoop : ∀ t' ∈ (buildTargetMap desired).map Prod.snd,
      updateIfNeeded cmp (syncPass cmp desired st).1.store t' =
        ((syncPass cmp desired st).1.store, false, none) := by
    intro t' ht'
    refine updateIfNeeded_noop (hS1 t' ht') hS3 ?_
    exact mequiv_desiredData_self _ hsd
  have hupd2 := @runUpdateLoop_noop cmp ((syncPass cmp desired st).1.store)
    ((buildTargetMap desired).map Prod.snd)
    { store := (syncPass cmp desired st).1.store, summary := TargetsSummary.init,
      statuses := [], writes := 0 } rfl hnoop
  have hlen : ((buildTargetMap desired).map Prod.snd).length = desired.length := by
    rw [List.length_map, buildTargetMap_length hnodup]
  have hps2' : runUpdateLoop cmp
      { store := (syncPass cmp desired st).1.store, summary := TargetsSummary.init,
        statuses := [], writes := 0 } ((buildTargetMap desired).map Prod.snd) =
      { store := (syncPass cmp desired st).1.store, summary := { Total := desired.length, Created := 0, Updated := desired.length, Deleted := 0, Orphaned := 0, Failed := 0 }, statuses := [], writes := 0 } := by
    rw [hupd2]
    simp only [TargetsSummary.init, hlen, Nat.zero_add, zero_add]
  have hfinal2 : (syncPass cmp desired (syncPass cmp desired st).1.store).1 =
      { store := (syncPass cmp desired st).1.store, summary := { Total := desired.length, Created := 0, Updated := desired.length, Deleted := 0, Orphaned := 0, Failed := 0 }, statuses := [], writes := 0 } := by
    show runDeleteLoop cmp (runUpdateLoop cmp (runCreateLoop cmp
        { store := (syncPass cmp desired st).1.store, summary := TargetsSummary.init,
          statuses := [], writes := 0 }
        (toCreate desired (getCurrentTargets cmp (syncPass cmp desired st).1.store)))
        (toUpdate desired (getCurrentTargets cmp (syncPass cmp desired st).1.store)))
        (toDelete desired (getCurrentTargets cmp (syncPass cmp desired st).1.store)) = _
    rw [hcr2, hup2]
    rw [show runCreateLoop cmp
        { store := (syncPass cmp desired st).1.store, summary := TargetsSummary.init,
          statuses := [], writes := 0 } [] =
        { store := (syncPass cmp desired st).1.store, summary := TargetsSummary.init,
          statuses := [], writes := 0 } from rfl]
    rw [hps2']
    rcases htri with hpol | hpol | hpol
    · rw [toDelete_eq_nil ?_]
      · rfl
      · intro k hk
        obtain ⟨t', ht', he⟩ := List.mem_map.1 hk
        obtain ⟨cm, hcm, hown, he2⟩ := mem_getCurrentTargets.1 ht'
        rw [← he, he2]
        exact hS2 (Or.inl hpol) cm hcm hown
    · rw [toDelete_eq_nil ?_]
      · rfl
      · intro k hk
        obtain ⟨t', ht', he⟩ := List.mem_map.1 hk
        obtain ⟨cm, hcm, hown, he2⟩ := mem_getCurrentTargets.1 ht'
        rw [← he, he2]
        exact hS2 (Or.inr hpol) cm hcm hown
    · rw [runDeleteLoop_other hpol.1 hpol.2]
  refine ⟨?_, ?_, ?_, ?_, ?_⟩
  · rw [hfinal2]
  · rw [hfinal2]
  · rw [hfinal2]
  · rw [hfinal2]
  · rw [syncPass_snd_eq, hfinal2]
    rfl

theorem c8_second_pass_idempotent_witness :
    (syncPass cexPeriodicCmp [cexFailTarget]
      (syncPass cexPeriodicCmp [cexFailTarget] [cexSrcCM]).1.store).1.writes = 0 ∧
    (syncPass cexPeriodicCmp [cexFailTarget]
      (syncPass cexPeriodicCmp [cexFailTarget] [cexSrcCM]).1.store).1.store =
      (syncPass cexPeriodicCmp [cexFailTarget] [cexSrcCM]).1.store ∧
    (syncPass cexPeriodicCmp [cexFailTarget]
      (syncPass cexPeriodicCmp [cexFailTarget] [cexSrcCM]).1.store).1.statuses = [] ∧
    (syncPass cexPeriodicCmp [cexFailTarget]
      (syncPass cexPeriodicCmp [cexFailTarget] [cexSrcCM]).1.store).1.summary =
      { Total := 1, Created := 0, Updated := 1, Deleted := 0, Orphaned := 0, Failed := 0 } ∧
    (syncPass cexPeriodicCmp [cexFailTarget]
      (syncPass cexPeriodicCmp [cexFailTarget] [cexSrcCM]).1.store).2 = none :=
  c8_second_pass_idempotent cexPeriodicCmp [cexFailTarget] [cexSrcCM] cexSrcCM
    (by decide) (by decide) (by decide) (by decide)
    (fun h => Option.noConfusion h) (by decide) (by decide)

end Propagator
